import Mathlib

/-!
Shallow embedding of the Modular-RAG repository (hugoiee/Modular-RAG) in Lean 4,
together with theorems settling spec claims about it.

Conventions used throughout:
* Python strings are modelled as Lean `String` (or `List Char` where per-character
  indexing matters); Python `len` is the code-point count, matching `String.length`.
* Python dicts used as configuration maps are modelled as structures holding the
  keys the embedded operators actually read (absent keys are `Option`/defaults).
* Calls into external LLM / vector-store collaborators are modelled as oracle
  functions supplied in an environment structure; an LLM call that raises an
  exception is an oracle returning `Except.error`.
* `print` diagnostics are pure no-ops, except warnings emitted by the strategy
  registries, which are modelled as an explicit `Bool` ("a warning was printed").
-/

/-- Model of `langchain_core.documents.Document`: page content plus a metadata map
(metadata values are only ever copied around by the embedded code, so a
string-to-string association list suffices). -/
structure Document where
  page_content : String
  metadata : List (String × String) := []
deriving DecidableEq, Repr

/-- Python `str.lower()` (character-wise; all strategy names dispatched on are
ASCII). -/
def pyLower (s : String) : String := String.mk (s.data.map Char.toLower)

/-! ## src/nodes/post_retrieval_operators/rerank.py -/

/-- Python `xs[:n]` for an `int` `n` (negative `n` counts from the end). -/
def pySliceTo (n : Int) (xs : List Document) : List Document :=
  if 0 ≤ n then xs.take n.toNat else xs.take (xs.length - (-n).toNat)

/-- Configuration keys read by the post-retrieval family
(`strategy`, `top_n`, `reverse_order`). -/
structure PostConfig where
  strategy : Option String := none
  top_n : Option Int := none
  reverse_order : Bool := false
deriving DecidableEq, Repr

/-- State of `RerankOperator` after `__init__` (the keys it reads from its config). -/
structure RerankOp where
  top_n : Option Int := none
  reverse_order : Bool := false
deriving DecidableEq, Repr

/-- `RerankOperator.__init__`: `top_n = config.get("top_n", None)`,
`reverse_order = config.get("reverse_order", False)`. -/
def RerankOp.ofConfig (cfg : PostConfig) : RerankOp :=
  { top_n := cfg.top_n, reverse_order := cfg.reverse_order }

/-- `RerankOperator._reorder_for_llm`: lost-in-the-middle reordering. -/
def reorderForLLM (documents : List Document) : List Document :=
  if documents.length ≤ 2 then documents
  else
    let n := documents.length
    let high := documents.take (n / 3)
    let mid := (documents.drop (n / 3)).take (2 * n / 3 - n / 3)
    let low := documents.drop (2 * n / 3)
    let half_high := high.length / 2
    high.take half_high ++ mid ++ low ++ high.drop half_high

/-- `RerankOperator.process`.  The guard `if self.top_n and self.top_n < len(reranked)`
tests Python truthiness of `top_n` (`None` and `0` are falsy) and the comparison. -/
def RerankOp.process (op : RerankOp) (documents : List Document)
    (_query : Option String) : List Document :=
  if documents = [] then []
  else
    let reranked := reorderForLLM documents
    let reranked :=
      match op.top_n with
      | some n => if n ≠ 0 ∧ n < (reranked.length : Int) then pySliceTo n reranked else reranked
      | none => reranked
    if op.reverse_order then reranked.reverse else reranked

/-! ## src/nodes/post_retrieval.py -/

/-- Behaviour of the post-retrieval operators that are not exercised by any claim
(they wrap LLM / embedding calls); supplied as an oracle environment. -/
structure PostEnv where
  diversityRerank : PostConfig → List Document → Option String → List Document
  llmRerank : PostConfig → List Document → Option String → List Document
  contextCompression : PostConfig → List Document → Option String → List Document
  summaryCompression : PostConfig → List Document → Option String → List Document
  tokenCompression : PostConfig → List Document → Option String → List Document
  selection : PostConfig → List Document → Option String → List Document
  relevanceFilter : PostConfig → List Document → Option String → List Document
  redundancyFilter : PostConfig → List Document → Option String → List Document

/-- The concrete operator classes constructible by `PostRetrievalModule._init_operator`. -/
inductive PostOperator where
  | rerank (op : RerankOp)
  | diversityRerank (cfg : PostConfig)
  | llmRerank (cfg : PostConfig)
  | contextCompression (cfg : PostConfig)
  | summaryCompression (cfg : PostConfig)
  | tokenCompression (cfg : PostConfig)
  | selection (cfg : PostConfig)
  | relevanceFilter (cfg : PostConfig)
  | redundancyFilter (cfg : PostConfig)
deriving DecidableEq

/-- Dynamic dispatch `operator.process(documents, query)`. -/
def PostOperator.process (env : PostEnv) :
    PostOperator → List Document → Option String → List Document
  | .rerank op, docs, q => op.process docs q
  | .diversityRerank cfg, docs, q => env.diversityRerank cfg docs q
  | .llmRerank cfg, docs, q => env.llmRerank cfg docs q
  | .contextCompression cfg, docs, q => env.contextCompression cfg docs q
  | .summaryCompression cfg, docs, q => env.summaryCompression cfg docs q
  | .tokenCompression cfg, docs, q => env.tokenCompression cfg docs q
  | .selection cfg, docs, q => env.selection cfg docs q
  | .relevanceFilter cfg, docs, q => env.relevanceFilter cfg docs q
  | .redundancyFilter cfg, docs, q => env.redundancyFilter cfg docs q

/-- The strategy names `PostRetrievalModule._init_operator` recognises. -/
def postKnownStrategies : List String :=
  ["rerank", "diversity_rerank", "llm_rerank", "context_compression",
   "summary_compression", "token_compression", "selection",
   "relevance_filter", "redundancy_filter"]

/-- `PostRetrievalModule._init_operator`: string dispatch over the lower-cased
strategy name; the returned `Bool` records whether the unknown-strategy warning
was printed. -/
def postInitOperator (strategyRaw : String) (cfg : PostConfig) : PostOperator × Bool :=
  let strategy := pyLower strategyRaw
  if strategy = "rerank" then (.rerank (RerankOp.ofConfig cfg), false)
  else if strategy = "diversity_rerank" then (.diversityRerank cfg, false)
  else if strategy = "llm_rerank" then (.llmRerank cfg, false)
  else if strategy = "context_compression" then (.contextCompression cfg, false)
  else if strategy = "summary_compression" then (.summaryCompression cfg, false)
  else if strategy = "token_compression" then (.tokenCompression cfg, false)
  else if strategy = "selection" then (.selection cfg, false)
  else if strategy = "relevance_filter" then (.relevanceFilter cfg, false)
  else if strategy = "redundancy_filter" then (.redundancyFilter cfg, false)
  else (.rerank (RerankOp.ofConfig cfg), true)

/-- State of a `PostRetrievalModule` after `__init__`. -/
structure PostRetrievalModule where
  strategy : String
  config : PostConfig
  operator : PostOperator

/-- `PostRetrievalModule.__init__`: `strategy = config.get("strategy", "rerank")`,
`operator = _init_operator()`; second component is the warning flag. -/
def mkPostRetrievalModule (cfg : PostConfig) : PostRetrievalModule × Bool :=
  let strategy := cfg.strategy.getD "rerank"
  let ow := postInitOperator strategy cfg
  ({ strategy := strategy, config := cfg, operator := ow.1 }, ow.2)

/-- `PostRetrievalModule.process` (the `verbose` prints are no-ops). -/
def PostRetrievalModule.process (m : PostRetrievalModule) (env : PostEnv)
    (documents : List Document) (query : Option String) : List Document :=
  if documents = [] then [] else m.operator.process env documents query

/-- `PostRetrievalPipeline` state: its ordered list of step modules. -/
structure PostRetrievalPipeline where
  steps : List PostRetrievalModule := []

/-- `PostRetrievalPipeline.process`: left fold of the steps over the document list. -/
def PostRetrievalPipeline.process (p : PostRetrievalPipeline) (env : PostEnv)
    (documents : List Document) (query : Option String) : List Document :=
  p.steps.foldl (fun current_docs step => step.process env current_docs query) documents

/-! ## src/nodes/pre_retrieval.py -/

/-- `Union[str, List[str], Dict[str, Any]]` returned by a pre-retrieval operator.
A dict (or other) result carries only its `str(...)` rendering, which is all the
pipeline ever uses of it. -/
inductive PreResult where
  | str (s : String)
  | list (l : List String)
  | other (rendered : String)
deriving DecidableEq, Repr

/-- Configuration key read by the pre-retrieval module itself. -/
structure PreConfig where
  strategy : Option String := none
deriving DecidableEq, Repr

/-- The concrete operator classes constructible by `PreRetrievalModule._init_operator`. -/
inductive PreOperator where
  | multiQuery (cfg : PreConfig)
  | subQuery (cfg : PreConfig)
  | hybridExpansion (cfg : PreConfig)
  | queryRewrite (cfg : PreConfig)
  | hyde (cfg : PreConfig)
  | stepBack (cfg : PreConfig)
  | cotRewrite (cfg : PreConfig)
  | textToSQL (cfg : PreConfig)
  | textToCypher (cfg : PreConfig)
  | metadataFilter (cfg : PreConfig)
deriving DecidableEq

/-- Behaviour of the pre-retrieval operators (each wraps LLM calls, so each is an
oracle from configuration and query to a result). -/
structure PreEnv where
  multiQuery : PreConfig → String → PreResult
  subQuery : PreConfig → String → PreResult
  hybridExpansion : PreConfig → String → PreResult
  queryRewrite : PreConfig → String → PreResult
  hyde : PreConfig → String → PreResult
  stepBack : PreConfig → String → PreResult
  cotRewrite : PreConfig → String → PreResult
  textToSQL : PreConfig → String → PreResult
  textToCypher : PreConfig → String → PreResult
  metadataFilter : PreConfig → String → PreResult

/-- Dynamic dispatch `operator.execute(query)`. -/
def PreOperator.execute (env : PreEnv) : PreOperator → String → PreResult
  | .multiQuery cfg, q => env.multiQuery cfg q
  | .subQuery cfg, q => env.subQuery cfg q
  | .hybridExpansion cfg, q => env.hybridExpansion cfg q
  | .queryRewrite cfg, q => env.queryRewrite cfg q
  | .hyde cfg, q => env.hyde cfg q
  | .stepBack cfg, q => env.stepBack cfg q
  | .cotRewrite cfg, q => env.cotRewrite cfg q
  | .textToSQL cfg, q => env.textToSQL cfg q
  | .textToCypher cfg, q => env.textToCypher cfg q
  | .metadataFilter cfg, q => env.metadataFilter cfg q

/-- The strategy names `PreRetrievalModule._init_operator` recognises. -/
def preKnownStrategies : List String :=
  ["multi_query", "sub_query", "hybrid_expansion", "query_rewrite", "hyde",
   "step_back", "cot_rewrite", "text_to_sql", "text_to_cypher", "metadata_filter"]

/-- `PreRetrievalModule._init_operator` with its unknown-strategy warning flag. -/
def preInitOperator (strategyRaw : String) (cfg : PreConfig) : PreOperator × Bool :=
  let strategy := pyLower strategyRaw
  if strategy = "multi_query" then (.multiQuery cfg, false)
  else if strategy = "sub_query" then (.subQuery cfg, false)
  else if strategy = "hybrid_expansion" then (.hybridExpansion cfg, false)
  else if strategy = "query_rewrite" then (.queryRewrite cfg, false)
  else if strategy = "hyde" then (.hyde cfg, false)
  else if strategy = "step_back" then (.stepBack cfg, false)
  else if strategy = "cot_rewrite" then (.cotRewrite cfg, false)
  else if strategy = "text_to_sql" then (.textToSQL cfg, false)
  else if strategy = "text_to_cypher" then (.textToCypher cfg, false)
  else if strategy = "metadata_filter" then (.metadataFilter cfg, false)
  else (.queryRewrite cfg, true)

/-- State of a `PreRetrievalModule` after `__init__`. -/
structure PreRetrievalModule where
  strategy : String
  config : PreConfig
  operator : PreOperator

/-- `PreRetrievalModule.__init__`: `strategy = config.get("strategy", "query_rewrite")`. -/
def mkPreRetrievalModule (cfg : PreConfig) : PreRetrievalModule × Bool :=
  let strategy := cfg.strategy.getD "query_rewrite"
  let ow := preInitOperator strategy cfg
  ({ strategy := strategy, config := cfg, operator := ow.1 }, ow.2)

/-- `PreRetrievalModule.process`: delegates to the active operator. -/
def PreRetrievalModule.process (m : PreRetrievalModule) (env : PreEnv)
    (query : String) : PreResult :=
  m.operator.execute env query

/-- The `isinstance` case analysis in `PreRetrievalPipeline.process`: a list result
is `extend`-ed, a string is appended, anything else is appended as `str(result)`. -/
def flattenPreResult : PreResult → List String
  | .str s => [s]
  | .list l => l
  | .other rendered => [rendered]

/-- The step loop of `PreRetrievalPipeline.process`: each step is applied to every
current query and the per-query results are flattened into the next query list. -/
def prePipelineRun (env : PreEnv) :
    List PreRetrievalModule → List String → List String
  | [], current_queries => current_queries
  | step :: rest, current_queries =>
      prePipelineRun env rest
        ((current_queries.map (fun q => flattenPreResult (step.process env q))).flatten)

/-- `Union[str, List[str]]` returned by `PreRetrievalPipeline.process`. -/
inductive PipeOutput where
  | single (s : String)
  | multi (l : List String)
deriving DecidableEq, Repr

/-- `PreRetrievalPipeline` state: its ordered list of step modules. -/
structure PreRetrievalPipeline where
  steps : List PreRetrievalModule := []

/-- `PreRetrievalPipeline.process`: runs the step loop starting from `[query]`,
then returns `current_queries[0]` if exactly one query remains, else the list. -/
def PreRetrievalPipeline.process (p : PreRetrievalPipeline) (env : PreEnv)
    (query : String) : PipeOutput :=
  match prePipelineRun env p.steps [query] with
  | [q] => .single q
  | l => .multi l

/-! ## src/nodes/generation.py and src/nodes/generation_operators/generator.py -/

/-- Configuration keys read by the generation family. -/
structure GenConfig where
  prompt_strategy : Option String := none
  generator : Option String := none
  model : Option String := none
  temperature : Option ℚ := none
  max_tokens : Option Nat := none
  top_p : Option ℚ := none
  simple_model : Option String := none
  complex_model : Option String := none
  complexity_threshold : Option ℚ := none
deriving DecidableEq, Repr

/-- Oracles for the generation family: `llm model system human` is one chat
completion against the named model (`Except.error e` models a raised exception
whose `str` is `e`); the remaining fields are the unembedded operators. -/
structure GenEnv where
  llm : String → String → String → Except String String
  template : GenConfig → String → List Document → String
  contextual : GenConfig → String → List Document → String
  cot : GenConfig → String → List Document → String
  streamGen : GenConfig → String → List Document → Option String → String
  ensembleGen : GenConfig → String → List Document → Option String → String

/-- `_build_default_prompt` shared by the generator operators. -/
def buildDefaultPrompt (query : String) (context : List Document) : String :=
  if context ≠ [] then
    let context_text := String.intercalate "\n\n"
      (context.enum.map (fun p => "[文档 " ++ toString (p.1 + 1) ++ "]\n" ++ p.2.page_content))
    "基于以下上下文信息回答问题：\n\n上下文：\n" ++ context_text ++
      "\n\n问题：" ++ query ++ "\n\n答案："
  else
    "问题：" ++ query ++ "\n\n答案："

/-- State of `LLMGeneratorOperator` after `__init__`. -/
structure LLMGenOp where
  model : String
  temperature : ℚ
  max_tokens : Nat
  top_p : ℚ
deriving DecidableEq

/-- `LLMGeneratorOperator.__init__` defaulted config reads. -/
def LLMGenOp.ofConfig (cfg : GenConfig) : LLMGenOp :=
  { model := cfg.model.getD "qwen-plus",
    temperature := cfg.temperature.getD (7/10),
    max_tokens := cfg.max_tokens.getD 2000,
    top_p := cfg.top_p.getD (9/10) }

/-- `LLMGeneratorOperator.execute`: uses the `prompt` kwarg if given, else the
default prompt; a raised exception from the LLM chain is converted into the
apologetic placeholder answer. -/
def LLMGenOp.execute (env : GenEnv) (op : LLMGenOp) (query : String)
    (context : List Document) (promptKwarg : Option String) : String :=
  let prompt_text := promptKwarg.getD (buildDefaultPrompt query context)
  match env.llm op.model "你是一个专业的AI助手。" prompt_text with
  | .ok answer => answer.trim
  | .error e => "抱歉，生成答案时出现错误：" ++ e

/-- The prompt operator classes constructible by `GenerationModule._init_prompt_operator`. -/
inductive PromptOperator where
  | template (cfg : GenConfig)
  | contextual (cfg : GenConfig)
  | cot (cfg : GenConfig)
deriving DecidableEq

/-- Dynamic dispatch `prompt_operator.execute(query, context)`. -/
def PromptOperator.execute (env : GenEnv) : PromptOperator → String → List Document → String
  | .template cfg, q, ctx => env.template cfg q ctx
  | .contextual cfg, q, ctx => env.contextual cfg q ctx
  | .cot cfg, q, ctx => env.cot cfg q ctx

/-- The generator operator classes constructible by `GenerationModule._init_generator_operator`. -/
inductive GeneratorOperator where
  | llm (op : LLMGenOp)
  | stream (cfg : GenConfig)
  | ensemble (cfg : GenConfig)
deriving DecidableEq

/-- Dynamic dispatch `generator_operator.execute(query, context, prompt=prompt)`. -/
def GeneratorOperator.execute (env : GenEnv) :
    GeneratorOperator → String → List Document → Option String → String
  | .llm op, q, ctx, pk => op.execute env q ctx pk
  | .stream cfg, q, ctx, pk => env.streamGen cfg q ctx pk
  | .ensemble cfg, q, ctx, pk => env.ensembleGen cfg q ctx pk

/-- The prompt strategy names `GenerationModule._init_prompt_operator` recognises. -/
def genKnownPromptStrategies : List String :=
  ["template", "contextual", "cot", "chain_of_thought"]

/-- The generator type names `GenerationModule._init_generator_operator` recognises. -/
def genKnownGeneratorTypes : List String := ["llm", "stream", "ensemble"]

/-- `GenerationModule._init_prompt_operator` with its warning flag. -/
def genInitPromptOperator (strategyRaw : String) (cfg : GenConfig) : PromptOperator × Bool :=
  let strategy := pyLower strategyRaw
  if strategy = "template" then (.template cfg, false)
  else if strategy = "contextual" then (.contextual cfg, false)
  else if strategy = "cot" ∨ strategy = "chain_of_thought" then (.cot cfg, false)
  else (.template cfg, true)

/-- `GenerationModule._init_generator_operator` with its warning flag. -/
def genInitGeneratorOperator (genTypeRaw : String) (cfg : GenConfig) : GeneratorOperator × Bool :=
  let gen_type := pyLower genTypeRaw
  if gen_type = "llm" then (.llm (LLMGenOp.ofConfig cfg), false)
  else if gen_type = "stream" then (.stream cfg, false)
  else if gen_type = "ensemble" then (.ensemble cfg, false)
  else (.llm (LLMGenOp.ofConfig cfg), true)

/-- State of a `GenerationModule` after `__init__`. -/
structure GenerationModule where
  prompt_strategy : String
  generator_type : String
  config : GenConfig
  prompt_operator : PromptOperator
  generator_operator : GeneratorOperator

/-- `GenerationModule.__init__`; the two flags record the prompt-operator and
generator-operator unknown-name warnings. -/
def mkGenerationModule (cfg : GenConfig) : GenerationModule × Bool × Bool :=
  let prompt_strategy := cfg.prompt_strategy.getD "template"
  let generator_type := cfg.generator.getD "llm"
  let pw := genInitPromptOperator prompt_strategy cfg
  let gw := genInitGeneratorOperator generator_type cfg
  ({ prompt_strategy := prompt_strategy, generator_type := generator_type,
     config := cfg, prompt_operator := pw.1, generator_operator := gw.1 }, pw.2, gw.2)

/-- `GenerationModule.generate`: build the prompt, then generate with it. -/
def GenerationModule.generate (m : GenerationModule) (env : GenEnv)
    (query : String) (context : List Document) : String :=
  let prompt := m.prompt_operator.execute env query context
  m.generator_operator.execute env query context (some prompt)

/-! ## AdaptiveGeneratorOperator (src/nodes/generation_operators/generator.py) -/

/-- State of `AdaptiveGeneratorOperator` after `__init__`.  The Python float
thresholds and weights are modelled as rationals; every comparison any claim
exercises evaluates identically under binary floating point and exact
arithmetic (all values involved are 0.0, 0.1, 0.2, 0.3 sums compared with 0.6,
and 0.3 + 0.3 is exactly 0.6 as an IEEE double). -/
structure AdaptiveGenOp where
  simple_model : String
  complex_model : String
  complexity_threshold : ℚ
deriving DecidableEq

/-- `AdaptiveGeneratorOperator.__init__` defaulted config reads. -/
def AdaptiveGenOp.ofConfig (cfg : GenConfig) : AdaptiveGenOp :=
  { simple_model := cfg.simple_model.getD "qwen-turbo",
    complex_model := cfg.complex_model.getD "qwen-max",
    complexity_threshold := cfg.complexity_threshold.getD (6/10) }

/-- Bool-valued infix test on character lists (scan every suffix). -/
def charsInfixOf (needle : List Char) : List Char → Bool
  | [] => needle.isPrefixOf []
  | c :: rest => needle.isPrefixOf (c :: rest) || charsInfixOf needle rest

/-- Python substring containment `needle in haystack`. -/
def pyIn (needle haystack : String) : Bool :=
  charsInfixOf needle.data haystack.data

/-- The fixed keyword list in `_assess_complexity`. -/
def complexKeywords : List String :=
  ["比较", "分析", "评估", "综合", "详细", "解释", "为什么"]

/-- `AdaptiveGeneratorOperator._assess_complexity`. -/
def assessComplexity (query : String) (context : List Document) : ℚ :=
  let c1 : ℚ := if 100 < query.length then 3/10 else if 50 < query.length then 2/10 else 1/10
  let c2 : ℚ :=
    if context ≠ [] ∧ 5 < context.length then 3/10
    else if context ≠ [] ∧ 2 < context.length then 2/10
    else 1/10
  let c3 : ℚ := if complexKeywords.any (fun kw => pyIn kw query) then 3/10 else 0
  min (c1 + c2 + c3) 1

/-- The two branches of the model selection in `AdaptiveGeneratorOperator.execute`. -/
inductive ModelChoice where
  | simple
  | complex
deriving DecidableEq, Repr

/-- The `complexity >= self.complexity_threshold` branch decision in
`AdaptiveGeneratorOperator.execute`. -/
def adaptiveChosenModel (op : AdaptiveGenOp) (query : String)
    (context : List Document) : ModelChoice :=
  if op.complexity_threshold ≤ assessComplexity query context then .complex else .simple

/-- `AdaptiveGeneratorOperator.execute`. -/
def AdaptiveGenOp.execute (env : GenEnv) (op : AdaptiveGenOp) (query : String)
    (context : List Document) (promptKwarg : Option String) : String :=
  let llmModel :=
    match adaptiveChosenModel op query context with
    | .complex => op.complex_model
    | .simple => op.simple_model
  let prompt_text := promptKwarg.getD (buildDefaultPrompt query context)
  match env.llm llmModel "你是一个专业的AI助手。" prompt_text with
  | .ok answer => answer.trim
  | .error e => "抱歉，生成答案时出现错误：" ++ e

/-! ## FactCheckOperator (src/nodes/generation_operators/verification.py) -/

/-- A Python value appearing in a verification-result dict. -/
inductive PyVal where
  | bool (b : Bool)
  | num (q : ℚ)
  | str (s : String)
  | list (l : List String)
deriving DecidableEq, Repr

/-- A verification-result dict: ordered key/value pairs. -/
abbrev VerifyRecord := List (String × PyVal)

/-- Oracles for `FactCheckOperator`: `llm = none` models a failed `ChatTongyi`
initialisation (`self.llm is None`); `parse` is `_parse_response` (regex + JSON
recovery, not embedded — no claim depends on its behaviour). -/
structure FactCheckEnv where
  llm : Option (String → Except String String)
  parse : String → VerifyRecord

/-- The neutral record `FactCheckOperator.execute` returns when the LLM is
unavailable, the context is empty, or the LLM call raises. -/
def factCheckDefault : VerifyRecord :=
  [("is_factual", .bool true), ("confidence", .num (1/2)), ("violations", .list [])]

/-- The fact-check prompt built by `FactCheckOperator.execute` (literal braces of
the JSON skeleton written as escapes). -/
def factCheckPrompt (context_text : String) (answer : String) : String :=
  "请作为事实核查专家，验证答案中的陈述是否与提供的上下文一致。\n\n上下文：\n" ++
    context_text ++ "\n\n答案：\n" ++ answer ++
    "\n\n请分析：\n1. 答案中的事实陈述是否有上下文支持\n2. 是否存在与上下文矛盾的内容\n3. 是否包含上下文中没有的信息\n\n以 JSON 格式返回：\n\x7b\x7b\n  \"is_factual\": true/false,\n  \"confidence\": 0.0-1.0,\n  \"violations\": [\"列出问题陈述\"]\n\x7d\x7d"

/-- `FactCheckOperator.execute`. -/
def factCheckExecute (env : FactCheckEnv) (_query : String)
    (context : List Document) (answer : String) : VerifyRecord :=
  match env.llm with
  | none => factCheckDefault
  | some llm =>
    if context = [] then factCheckDefault
    else
      let context_text :=
        String.intercalate "\n\n" ((context.take 3).map (fun d => d.page_content))
      match llm (factCheckPrompt context_text answer) with
      | .ok response => env.parse response
      | .error _ => factCheckDefault

/-! ## src/nodes/strategies/hierarchical.py

Texts are handled as `List Char` here (Python `str` indexing/slicing is by code
point). -/

/-- Python `str.strip()` whitespace test (ASCII whitespace; the embedded inputs
contain no other Unicode space characters). -/
def pyIsSpace (c : Char) : Bool :=
  c = ' ' || c = '\t' || c = '\n' || c = '\r' || c = '\x0b' || c = '\x0c'

/-- Python `str.strip()`. -/
def pyStrip (s : List Char) : List Char :=
  ((s.dropWhile pyIsSpace).reverse.dropWhile pyIsSpace).reverse

/-- Scan for `str.rfind`: highest index `i ≤ bound` at which `pat` occurs in `s`,
as an `Int`, `-1` if none. -/
def rfindFrom (s pat : List Char) : Nat → Int
  | 0 => if pat.isPrefixOf s then 0 else -1
  | i+1 => if pat.isPrefixOf (s.drop (i+1)) then ((i+1 : Nat) : Int) else rfindFrom s pat i

/-- Python `s.rfind(pat)`. -/
def pyRfind (s pat : List Char) : Int :=
  rfindFrom s pat s.length

/-- The line `last_period = max(summary.rfind("。"), summary.rfind(". "),
summary.rfind("! "), summary.rfind("? "))` of `_generate_summary`. -/
def lastSentenceEnd (summary : List Char) : Int :=
  max (pyRfind summary ['。'])
    (max (pyRfind summary ['.', ' '])
      (max (pyRfind summary ['!', ' ']) (pyRfind summary ['?', ' '])))

/-- `HierarchicalIndexStrategy._generate_summary`.  The source compares
`last_period > max_length * 0.5`; multiplication by `0.5` is exact in binary
floating point, so the test is exactly `2 * last_period > max_length` over ℤ. -/
def generateSummary (textRaw : List Char) (max_length : Nat) : List Char :=
  let text := pyStrip textRaw
  if text.length ≤ max_length then text
  else
    let summary := text.take max_length
    if (max_length : Int) < 2 * lastSentenceEnd summary then
      summary.take (lastSentenceEnd summary + 1).toNat
    else summary ++ ['.', '.', '.']

/-- Python `text.split("\n\n")` (fuelled scan; fuel = remaining length suffices). -/
def splitOnNNAux : Nat → List Char → List Char → List (List Char)
  | 0, s, cur => [cur.reverse ++ s]
  | fuel+1, s, cur =>
    match s with
    | [] => [cur.reverse]
    | c :: rest =>
      if ['\n', '\n'].isPrefixOf (c :: rest) then
        cur.reverse :: splitOnNNAux fuel ((c :: rest).drop 2) []
      else splitOnNNAux fuel rest (c :: cur)

/-- Python `text.split("\n\n")`. -/
def splitOnNN (s : List Char) : List (List Char) :=
  splitOnNNAux s.length s []

/-- The merge loop of `_split_into_sections` (greedily concatenate fragments while
the running length stays under 500). -/
def mergeSectionsLoop : List (List Char) → List (List Char) → List Char → List (List Char)
  | [], merged, current => if current ≠ [] then merged ++ [current] else merged
  | sec :: rest, merged, current =>
    if current.length + sec.length < 500 then
      mergeSectionsLoop rest merged
        (if current ≠ [] then current ++ ('\n' :: '\n' :: sec) else sec)
    else
      if current ≠ [] then mergeSectionsLoop rest (merged ++ [current]) sec
      else mergeSectionsLoop rest merged sec

/-- `HierarchicalIndexStrategy._split_into_sections`. -/
def splitIntoSections (text : List Char) : List (List Char) :=
  let sections := ((splitOnNN text).map pyStrip).filter (fun s => s ≠ [])
  if sections = [] then [text]
  else
    let merged := mergeSectionsLoop sections [] []
    if merged = [] then [text] else merged

/-- The slicing loop `for i in range(0, len(text), chunk_size)` (fuelled; faithful
for `chunk_size ≥ 1` — Python raises on step 0, where this model acts as step 1). -/
def chunksOfAux : Nat → Nat → List Char → List (List Char)
  | _, _, [] => []
  | 0, _, s => [s]
  | fuel+1, size, c :: cs => (c :: cs.take (size - 1)) :: chunksOfAux fuel size (cs.drop (size - 1))

/-- `HierarchicalIndexStrategy._split_into_chunks`. -/
def splitIntoChunks (text : List Char) (chunk_size : Nat) : List (List Char) :=
  let chunks := (chunksOfAux text.length chunk_size text).filter (fun c => pyStrip c ≠ [])
  if chunks = [] then [text] else chunks

/-- Decimal digit character. -/
def pyDigitChar (d : Nat) : Char :=
  ['0', '1', '2', '3', '4', '5', '6', '7', '8', '9'].getD d '*'

/-- Big-endian decimal digits of `n` (fuelled; empty for `n = 0`). -/
def pyNatAux : Nat → Nat → List Char
  | 0, _ => []
  | fuel+1, n => if n = 0 then [] else pyNatAux fuel (n / 10) ++ [pyDigitChar (n % 10)]

/-- Python `str(n)` for a natural number (the f-string rendering of the indices). -/
def pyNat (n : Nat) : List Char :=
  if n = 0 then ['0'] else pyNatAux (n + 1) n

/-- `f"doc_{doc_idx}"`. -/
def docIdL (i : Nat) : List Char := "doc_".data ++ pyNat i

/-- `f"doc_{doc_idx}_sec_{section_idx}"`. -/
def secIdL (i j : Nat) : List Char := docIdL i ++ "_sec_".data ++ pyNat j

/-- `f"doc_{doc_idx}_sec_{section_idx}_chunk_{chunk_idx}"`. -/
def chunkIdL (i j k : Nat) : List Char := secIdL i j ++ "_chunk_".data ++ pyNat k

/-- `HierarchicalNode` (`__init__` fields; `children_ids` starts empty,
`summary` starts `""`). -/
structure HierarchicalNode where
  content : List Char
  level : Nat
  node_id : List Char
  parent_id : Option (List Char)
  children_ids : List (List Char) := []
  metadata : List (String × String) := []
  summary : List Char := []
deriving DecidableEq, Repr

/-- Mutable strategy state: `self.nodes` (dict node_id → node) and `self.root_nodes`. -/
structure HState where
  nodes : List Char → Option HierarchicalNode
  root_nodes : List (List Char)

/-- A fresh `HierarchicalIndexStrategy` (empty dict, empty root list). -/
def emptyHState : HState := { nodes := fun _ => none, root_nodes := [] }

/-- `self.nodes[k] = v`. -/
def insertNode (m : List Char → Option HierarchicalNode) (k : List Char)
    (v : HierarchicalNode) : List Char → Option HierarchicalNode :=
  fun q => if q = k then some v else m q

/-- `parent.add_child(c)` for the parent object stored at key `p`.  In Python the
parent local variable aliases the dict entry, so mutating it is visible through
`self.nodes`; each key is written once per build (ids are pairwise distinct,
proved below), so updating the map entry is an equivalent rendering. -/
def addChildInMap (m : List Char → Option HierarchicalNode) (p c : List Char) :
    List Char → Option HierarchicalNode :=
  match m p with
  | some n => insertNode m p { n with children_ids := n.children_ids ++ [c] }
  | none => m

/-- Inner chunk loop of `build_hierarchy` (level-2 leaf nodes of one section). -/
def buildChunks (doc_idx sec_idx : Nat) (meta : List (String × String)) :
    Nat → List (List Char) → HState → HState
  | _, [], st => st
  | k, chunk :: rest, st =>
    let chunk_node_id := chunkIdL doc_idx sec_idx k
    let chunk_node : HierarchicalNode :=
      { content := chunk, level := 2, node_id := chunk_node_id,
        parent_id := some (secIdL doc_idx sec_idx), metadata := meta }
    let nodes2 := addChildInMap (insertNode st.nodes chunk_node_id chunk_node)
      (secIdL doc_idx sec_idx) chunk_node_id
    buildChunks doc_idx sec_idx meta (k + 1) rest { st with nodes := nodes2 }

/-- Middle section loop of `build_hierarchy` (level-1 nodes of one document and
their chunk children). -/
def buildSections (doc_idx chunk_size : Nat) (meta : List (String × String)) :
    Nat → List (List Char) → HState → HState
  | _, [], st => st
  | j, sec :: rest, st =>
    let section_node_id := secIdL doc_idx j
    let section_node : HierarchicalNode :=
      { content := sec, level := 1, node_id := section_node_id,
        parent_id := some (docIdL doc_idx), metadata := meta,
        summary := generateSummary sec 100 }
    let nodes2 := addChildInMap (insertNode st.nodes section_node_id section_node)
      (docIdL doc_idx) section_node_id
    let st2 := buildChunks doc_idx j meta 0 (splitIntoChunks sec chunk_size)
      { st with nodes := nodes2 }
    buildSections doc_idx chunk_size meta (j + 1) rest st2

/-- Outer document loop of `build_hierarchy` (level-0 root node per document). -/
def buildDocs (chunk_size : Nat) : Nat → List Document → HState → HState
  | _, [], st => st
  | doc_idx, doc :: rest, st =>
    let doc_node_id := docIdL doc_idx
    let content := doc.page_content.data
    let doc_node : HierarchicalNode :=
      { content := content, level := 0, node_id := doc_node_id,
        parent_id := none, metadata := doc.metadata,
        summary := generateSummary content 200 }
    let st1 : HState :=
      { nodes := insertNode st.nodes doc_node_id doc_node,
        root_nodes := st.root_nodes ++ [doc_node_id] }
    let st2 := buildSections doc_idx chunk_size doc.metadata 0
      (splitIntoSections content) st1
    buildDocs chunk_size (doc_idx + 1) rest st2

/-- `HierarchicalIndexStrategy.build_hierarchy` run on a fresh strategy: the
resulting `self.nodes` / `self.root_nodes` state.  (The list of flattened
retrievable documents it returns is not modelled; no claim concerns it.) -/
def build_hierarchy (documents : List Document) (chunk_size : Nat) : HState :=
  buildDocs chunk_size 0 documents emptyHState

/-! ## Claims about the rerank operator and post-retrieval module -/

/-- The three-thirds decomposition used by `_reorder_for_llm` recovers the input. -/
theorem reorder_split (docs : List Document) :
    docs = docs.take (docs.length / 3) ++
      ((docs.drop (docs.length / 3)).take (2 * docs.length / 3 - docs.length / 3) ++
        docs.drop (2 * docs.length / 3)) := by
  have hd : docs.length / 3 ≤ 2 * docs.length / 3 := Nat.div_le_div_right (by omega)
  conv_lhs => rw [← List.take_append_drop (docs.length / 3) docs]
  congr 1
  conv_lhs =>
    rw [← List.take_append_drop (2 * docs.length / 3 - docs.length / 3)
      (docs.drop (docs.length / 3))]
  congr 1
  rw [List.drop_drop]
  congr 1
  omega

/-- The lost-in-the-middle output is a permutation of its input. -/
theorem reorderForLLM_perm (docs : List Document) : (reorderForLLM docs).Perm docs := by
  by_cases h : docs.length ≤ 2
  · simp [reorderForLLM, h]
  · simp only [reorderForLLM, if_neg h]
    conv_rhs => rw [reorder_split docs]
    generalize docs.take (docs.length / 3) = high
    generalize (docs.drop (docs.length / 3)).take (2 * docs.length / 3 - docs.length / 3) = mid
    generalize docs.drop (2 * docs.length / 3) = low
    have e1 : high.take (high.length / 2) ++ mid ++ low ++ high.drop (high.length / 2) =
        high.take (high.length / 2) ++ ((mid ++ low) ++ high.drop (high.length / 2)) := by
      simp [List.append_assoc]
    rw [e1]
    refine ((List.Perm.append_left _ (List.perm_append_comm)).trans ?_)
    rw [← List.append_assoc, List.take_append_drop]

/-- C2: the lost-in-the-middle reordering returns lists of length ≤ 2 unchanged;
for longer lists it returns `high[:half] + mid + low + high[half:]` over the
three thirds with `half = len(high) // 2`; the output is always a permutation of
the input; and `[a,b,c,d,e,f]` reorders to `[a,c,d,e,f,b]`. -/
theorem claim_C2_lost_in_middle_reorder :
    (∀ docs : List Document, docs.length ≤ 2 → reorderForLLM docs = docs) ∧
    (∀ docs : List Document, 2 < docs.length →
      reorderForLLM docs =
        (docs.take (docs.length / 3)).take ((docs.take (docs.length / 3)).length / 2) ++
        (docs.drop (docs.length / 3)).take (2 * docs.length / 3 - docs.length / 3) ++
        docs.drop (2 * docs.length / 3) ++
        (docs.take (docs.length / 3)).drop ((docs.take (docs.length / 3)).length / 2)) ∧
    (∀ docs : List Document, (reorderForLLM docs).Perm docs) ∧
    (∀ a b c d e f : Document, reorderForLLM [a, b, c, d, e, f] = [a, c, d, e, f, b]) := by
  refine ⟨?_, ?_, reorderForLLM_perm, ?_⟩
  · intro docs h
    simp [reorderForLLM, h]
  · intro docs h
    simp only [reorderForLLM, if_neg (by omega : ¬ docs.length ≤ 2)]
  · intro a b c d e f
    simp [reorderForLLM]

/-- Concrete instantiation of `claim_C2_lost_in_middle_reorder`. -/
theorem claim_C2_lost_in_middle_reorder_witness :
    reorderForLLM [⟨"1", []⟩, ⟨"2", []⟩] = [⟨"1", []⟩, ⟨"2", []⟩] ∧
    reorderForLLM [⟨"1", []⟩, ⟨"2", []⟩, ⟨"3", []⟩, ⟨"4", []⟩, ⟨"5", []⟩, ⟨"6", []⟩] =
      [⟨"1", []⟩, ⟨"3", []⟩, ⟨"4", []⟩, ⟨"5", []⟩, ⟨"6", []⟩, ⟨"2", []⟩] :=
  ⟨claim_C2_lost_in_middle_reorder.1 _ (by decide),
   claim_C2_lost_in_middle_reorder.2.2.2 _ _ _ _ _ _⟩

/-- C1: a `PostRetrievalModule` built from `{"strategy": "rerank", "top_n": 2}`
maps six pre-ranked documents to exactly the first two elements of the
lost-in-the-middle reordering, `[d1, d3]` — not the first two of the original
order (whenever `d3 ≠ d2`). -/
theorem claim_C1_rerank_module_top2 :
    ∀ (env : PostEnv) (q : Option String) (d1 d2 d3 d4 d5 d6 : Document),
      (mkPostRetrievalModule { strategy := some "rerank", top_n := some 2 }).1.process
          env [d1, d2, d3, d4, d5, d6] q = [d1, d3] ∧
      [d1, d3] = (reorderForLLM [d1, d2, d3, d4, d5, d6]).take 2 ∧
      (d3 ≠ d2 →
        (mkPostRetrievalModule { strategy := some "rerank", top_n := some 2 }).1.process
            env [d1, d2, d3, d4, d5, d6] q ≠ [d1, d2, d3, d4, d5, d6].take 2) := by
  intro env q d1 d2 d3 d4 d5 d6
  have hop : (mkPostRetrievalModule { strategy := some "rerank", top_n := some 2 }).1.operator
      = PostOperator.rerank { top_n := some 2, reverse_order := false } := by decide
  have hres : (mkPostRetrievalModule { strategy := some "rerank", top_n := some 2 }).1.process
      env [d1, d2, d3, d4, d5, d6] q = [d1, d3] := by
    simp only [PostRetrievalModule.process, hop, PostOperator.process, RerankOp.process]
    norm_num [reorderForLLM, pySliceTo]
    simp
  refine ⟨hres, by simp [reorderForLLM], ?_⟩
  intro hne heq
  rw [hres] at heq
  simp at heq
  exact hne heq

/-- Concrete instantiation of `claim_C1_rerank_module_top2`. -/
theorem claim_C1_rerank_module_top2_witness :
    (mkPostRetrievalModule { strategy := some "rerank", top_n := some 2 }).1.process
        ⟨fun _ d _ => d, fun _ d _ => d, fun _ d _ => d, fun _ d _ => d,
         fun _ d _ => d, fun _ d _ => d, fun _ d _ => d, fun _ d _ => d⟩
        [⟨"1", []⟩, ⟨"2", []⟩, ⟨"3", []⟩, ⟨"4", []⟩, ⟨"5", []⟩, ⟨"6", []⟩] (some "q") =
      [⟨"1", []⟩, ⟨"3", []⟩] ∧
    (mkPostRetrievalModule { strategy := some "rerank", top_n := some 2 }).1.process
        ⟨fun _ d _ => d, fun _ d _ => d, fun _ d _ => d, fun _ d _ => d,
         fun _ d _ => d, fun _ d _ => d, fun _ d _ => d, fun _ d _ => d⟩
        [⟨"1", []⟩, ⟨"2", []⟩, ⟨"3", []⟩, ⟨"4", []⟩, ⟨"5", []⟩, ⟨"6", []⟩] (some "q") ≠
      [⟨"1", []⟩, ⟨"2", []⟩, ⟨"3", []⟩, ⟨"4", []⟩, ⟨"5", []⟩, ⟨"6", []⟩].take 2 := by
  refine ⟨(claim_C1_rerank_module_top2 _ _ _ _ _ _ _ _).1,
    (claim_C1_rerank_module_top2 _ _ _ _ _ _ _ _).2.2 (by decide)⟩

/-- C5: a pipeline with zero steps is the identity: the post-retrieval pipeline
returns the document list unchanged and the pre-retrieval pipeline returns the
single input query. -/
theorem claim_C5_empty_pipeline_identity :
    (∀ (env : PostEnv) (documents : List Document) (q : Option String),
      (PostRetrievalPipeline.mk []).process env documents q = documents) ∧
    (∀ (env : PreEnv) (query : String),
      (PreRetrievalPipeline.mk []).process env query = .single query) := by
  exact ⟨fun _ _ _ => rfl, fun _ _ => rfl⟩

/-! ## Claims about the strategy registries and the pre-retrieval pipeline -/

/-- C3: for every strategy name outside a family's known table, the module
constructor still succeeds: it emits the warning and installs the family's
documented default operator (Rerank for post-retrieval, Query Rewrite for
pre-retrieval, template/llm for generation), and `process`/`generate` then runs
through that default operator. -/
theorem claim_C3_unknown_strategy_defaults :
    ∀ (s : String) (cfgP : PostConfig) (cfgQ : PreConfig) (cfgG : GenConfig),
      (pyLower s ∉ postKnownStrategies →
        postInitOperator s cfgP = (.rerank (RerankOp.ofConfig cfgP), true) ∧
        ∀ (env : PostEnv) (docs : List Document) (q : Option String),
          (mkPostRetrievalModule { cfgP with strategy := some s }).1.process env docs q =
            (mkPostRetrievalModule { cfgP with strategy := some "rerank" }).1.process env docs q) ∧
      (pyLower s ∉ preKnownStrategies →
        preInitOperator s cfgQ = (.queryRewrite cfgQ, true) ∧
        ∀ (env : PreEnv) (query : String),
          (mkPreRetrievalModule { cfgQ with strategy := some s }).1.process env query =
            env.queryRewrite { cfgQ with strategy := some s } query) ∧
      (pyLower s ∉ genKnownPromptStrategies →
        genInitPromptOperator s cfgG = (.template cfgG, true)) ∧
      (pyLower s ∉ genKnownGeneratorTypes →
        genInitGeneratorOperator s cfgG = (.llm (LLMGenOp.ofConfig cfgG), true)) ∧
      (pyLower s ∉ genKnownPromptStrategies → pyLower s ∉ genKnownGeneratorTypes →
        ∀ (env : GenEnv) (query : String) (context : List Document),
          (mkGenerationModule
              { cfgG with prompt_strategy := some s, generator := some s }).1.generate
              env query context =
            LLMGenOp.execute env
              (LLMGenOp.ofConfig { cfgG with prompt_strategy := some s, generator := some s })
              query context
              (some (env.template { cfgG with prompt_strategy := some s, generator := some s }
                query context))) := by
  intro s cfgP cfgQ cfgG
  refine ⟨?_, ?_, ?_, ?_, ?_⟩
  · intro h
    simp only [postKnownStrategies, List.mem_cons, List.not_mem_nil, or_false, not_or] at h
    obtain ⟨h1, h2, h3, h4, h5, h6, h7, h8, h9⟩ := h
    have hrk : pyLower "rerank" = "rerank" := by decide
    constructor
    · simp [postInitOperator, h1, h2, h3, h4, h5, h6, h7, h8, h9]
    · intro env docs q
      have hL : (mkPostRetrievalModule { cfgP with strategy := some s }).1.operator =
          PostOperator.rerank (RerankOp.ofConfig cfgP) := by
        simp [mkPostRetrievalModule, postInitOperator, h1, h2, h3, h4, h5, h6, h7, h8, h9,
          RerankOp.ofConfig]
      have hR : (mkPostRetrievalModule { cfgP with strategy := some "rerank" }).1.operator =
          PostOperator.rerank (RerankOp.ofConfig cfgP) := by
        simp [mkPostRetrievalModule, postInitOperator, hrk, RerankOp.ofConfig]
      simp only [PostRetrievalModule.process, hL, hR]
  · intro h
    simp only [preKnownStrategies, List.mem_cons, List.not_mem_nil, or_false, not_or] at h
    obtain ⟨h1, h2, h3, h4, h5, h6, h7, h8, h9, h10⟩ := h
    constructor
    · simp [preInitOperator, h1, h2, h3, h4, h5, h6, h7, h8, h9, h10]
    · intro env query
      simp [mkPreRetrievalModule, PreRetrievalModule.process, preInitOperator,
        h1, h2, h3, h4, h5, h6, h7, h8, h9, h10, PreOperator.execute]
  · intro h
    simp only [genKnownPromptStrategies, List.mem_cons, List.not_mem_nil, or_false, not_or] at h
    obtain ⟨h1, h2, h3, h4⟩ := h
    simp [genInitPromptOperator, h1, h2, h3, h4]
  · intro h
    simp only [genKnownGeneratorTypes, List.mem_cons, List.not_mem_nil, or_false, not_or] at h
    obtain ⟨h1, h2, h3⟩ := h
    simp [genInitGeneratorOperator, h1, h2, h3]
  · intro hp hg
    simp only [genKnownPromptStrategies, List.mem_cons, List.not_mem_nil, or_false,
      not_or] at hp
    simp only [genKnownGeneratorTypes, List.mem_cons, List.not_mem_nil, or_false, not_or] at hg
    obtain ⟨p1, p2, p3, p4⟩ := hp
    obtain ⟨g1, g2, g3⟩ := hg
    intro env query context
    simp [mkGenerationModule, genInitPromptOperator, genInitGeneratorOperator,
      p1, p2, p3, p4, g1, g2, g3, GenerationModule.generate, PromptOperator.execute,
      GeneratorOperator.execute]

/-- Trivial oracle environment for the pre-retrieval operators. -/
def stubPreEnv : PreEnv :=
  ⟨fun _ q => .str q, fun _ q => .str q, fun _ q => .str q, fun _ q => .str q,
   fun _ q => .str q, fun _ q => .str q, fun _ q => .str q, fun _ q => .str q,
   fun _ q => .str q, fun _ q => .str q⟩

/-- Concrete instantiation of `claim_C3_unknown_strategy_defaults` at the unknown
name "bogus". -/
theorem claim_C3_unknown_strategy_defaults_witness :
    postInitOperator "bogus" {} = (.rerank (RerankOp.ofConfig {}), true) ∧
    (mkPreRetrievalModule { strategy := some "bogus" }).1.process stubPreEnv "hello" =
      stubPreEnv.queryRewrite { strategy := some "bogus" } "hello" ∧
    genInitPromptOperator "bogus" {} = (.template {}, true) ∧
    genInitGeneratorOperator "bogus" {} = (.llm (LLMGenOp.ofConfig {}), true) :=
  ⟨((claim_C3_unknown_strategy_defaults "bogus" {} {} {}).1 (by decide)).1,
   ((claim_C3_unknown_strategy_defaults "bogus" {} {} {}).2.1 (by decide)).2 stubPreEnv "hello",
   (claim_C3_unknown_strategy_defaults "bogus" {} {} {}).2.2.1 (by decide),
   (claim_C3_unknown_strategy_defaults "bogus" {} {} {}).2.2.2.1 (by decide)⟩

/-- C4: the pre-retrieval pipeline broadcasts: each step is applied to every
query produced by the previous step and the per-query results are flattened;
consequently an expand-to-3 step followed by a per-query rewrite step yields
exactly the 3 rewritten queries. -/
theorem claim_C4_pipeline_broadcast :
    (∀ (env : PreEnv) (step : PreRetrievalModule) (rest : List PreRetrievalModule)
        (qs : List String),
      prePipelineRun env (step :: rest) qs =
        prePipelineRun env rest
          ((qs.map (fun q => flattenPreResult (step.process env q))).flatten)) ∧
    (∀ (env : PreEnv) (m1 m2 : PreRetrievalModule) (q q1 q2 q3 : String)
        (rewriteFn : String → String),
      m1.process env q = .list [q1, q2, q3] →
      (∀ x, m2.process env x = .str (rewriteFn x)) →
      (PreRetrievalPipeline.mk [m1, m2]).process env q =
        .multi [rewriteFn q1, rewriteFn q2, rewriteFn q3]) := by
  constructor
  · intro env step rest qs
    rfl
  · intro env m1 m2 q q1 q2 q3 rewriteFn h1 h2
    simp [PreRetrievalPipeline.process, prePipelineRun, h1, h2, flattenPreResult]

/-- Oracle environment for the broadcast witness: `multi_query` expands to three
fixed queries, `query_rewrite` appends a marker. -/
def broadcastPreEnv : PreEnv :=
  ⟨fun _ _ => .list ["a", "b", "c"], fun _ q => .str q, fun _ q => .str q,
   fun _ q => .str (q ++ "!"), fun _ q => .str q, fun _ q => .str q, fun _ q => .str q,
   fun _ q => .str q, fun _ q => .str q, fun _ q => .str q⟩

/-- Concrete instantiation of `claim_C4_pipeline_broadcast`: a multi-query module
then a query-rewrite module over `broadcastPreEnv` turn one query into exactly 3
rewritten queries. -/
theorem claim_C4_pipeline_broadcast_witness :
    (PreRetrievalPipeline.mk
        [(mkPreRetrievalModule { strategy := some "multi_query" }).1,
         (mkPreRetrievalModule { strategy := some "query_rewrite" }).1]).process
      broadcastPreEnv "seed" = .multi ["a!", "b!", "c!"] :=
  claim_C4_pipeline_broadcast.2 broadcastPreEnv
    (mkPreRetrievalModule { strategy := some "multi_query" }).1
    (mkPreRetrievalModule { strategy := some "query_rewrite" }).1
    "seed" "a" "b" "c" (fun q => q ++ "!") (by decide) (fun x => rfl)

/-- C10: the runtime type of `PreRetrievalPipeline.process` depends on how many
queries remain after the final step: exactly one remaining query is returned as
a bare string, more than one as a list. -/
theorem claim_C10_pipeline_result_shape :
    ∀ (env : PreEnv) (p : PreRetrievalPipeline) (query : String),
      (∀ s, prePipelineRun env p.steps [query] = [s] →
        p.process env query = .single s) ∧
      (1 < (prePipelineRun env p.steps [query]).length →
        p.process env query = .multi (prePipelineRun env p.steps [query])) := by
  intro env p query
  constructor
  · intro s h
    simp [PreRetrievalPipeline.process, h]
  · intro h
    cases hl : prePipelineRun env p.steps [query] with
    | nil => rw [hl] at h; exact absurd h (by simp)
    | cons a t =>
      cases t with
      | nil => rw [hl] at h; exact absurd h (by simp)
      | cons b t2 => simp [PreRetrievalPipeline.process, hl]

/-- Concrete instantiation of `claim_C10_pipeline_result_shape`: the empty
pipeline keeps one query (bare string); a multi-query step yields a list. -/
theorem claim_C10_pipeline_result_shape_witness :
    (PreRetrievalPipeline.mk []).process broadcastPreEnv "seed" = .single "seed" ∧
    (PreRetrievalPipeline.mk
        [(mkPreRetrievalModule { strategy := some "multi_query" }).1]).process
      broadcastPreEnv "seed" = .multi ["a", "b", "c"] :=
  ⟨(claim_C10_pipeline_result_shape broadcastPreEnv (PreRetrievalPipeline.mk []) "seed").1
      "seed" rfl,
   (claim_C10_pipeline_result_shape broadcastPreEnv
      (PreRetrievalPipeline.mk
        [(mkPreRetrievalModule { strategy := some "multi_query" }).1]) "seed").2 (by decide)⟩

/-! ## Claims about generation-family error handling and adaptive routing -/

/-- The claimed shape of the fact-check fallback record in the spec sentence
under test (flag key `is_valid`). -/
def claimedFactCheckRecord : VerifyRecord :=
  [("is_valid", .bool true), ("confidence", .num (1/2)), ("violations", .list [])]

/-- C6 counterexample: when the LLM call raises, `FactCheckOperator.execute`
does not return the record `{is_valid: true, confidence: 0.5, violations: []}`
named by the claim — its fallback record carries no `is_valid` key at all. -/
theorem claim_C6_counterexample_is_valid_key :
    factCheckExecute ⟨some (fun _ => .error "boom"), fun _ => []⟩ "q"
        [{ page_content := "ctx" }] "a" ≠ claimedFactCheckRecord ∧
    (factCheckExecute ⟨some (fun _ => .error "boom"), fun _ => []⟩ "q"
        [{ page_content := "ctx" }] "a").lookup "is_valid" = none := by
  constructor
  · intro h
    have : factCheckDefault = claimedFactCheckRecord := h
    simp [factCheckDefault, claimedFactCheckRecord] at this
  · rfl

/-- C6 (amended): when the underlying LLM call raises, `LLMGeneratorOperator`
returns the error-describing placeholder string as the answer, and
`FactCheckOperator` returns the neutral record — whose flag key is
`is_factual`, not `is_valid` — `{is_factual: true, confidence: 0.5,
violations: []}`. -/
theorem claim_C6_llm_failure_degrades :
    (∀ (env : GenEnv) (op : LLMGenOp) (query : String) (context : List Document)
        (promptKwarg : Option String) (e : String),
      env.llm op.model "你是一个专业的AI助手。"
          (promptKwarg.getD (buildDefaultPrompt query context)) = .error e →
      op.execute env query context promptKwarg = "抱歉，生成答案时出现错误：" ++ e) ∧
    (∀ (llm : String → Except String String) (parse : String → VerifyRecord)
        (query : String) (context : List Document) (answer : String) (e : String),
      context ≠ [] →
      llm (factCheckPrompt
          (String.intercalate "\n\n" ((context.take 3).map (fun d => d.page_content)))
          answer) = .error e →
      factCheckExecute ⟨some llm, parse⟩ query context answer = factCheckDefault) ∧
    factCheckDefault =
      [("is_factual", .bool true), ("confidence", .num (1/2)), ("violations", .list [])] := by
  refine ⟨?_, ?_, rfl⟩
  · intro env op query context promptKwarg e h
    simp [LLMGenOp.execute, h]
  · intro llm parse query context answer e hctx h
    unfold factCheckExecute
    dsimp only
    rw [if_neg hctx, h]

/-- Concrete instantiation of `claim_C6_llm_failure_degrades` with an
always-raising LLM oracle. -/
theorem claim_C6_llm_failure_degrades_witness :
    LLMGenOp.execute
        ⟨fun _ _ _ => .error "boom", fun _ q _ => q, fun _ q _ => q, fun _ q _ => q,
         fun _ _ _ _ => "", fun _ _ _ _ => ""⟩
        (LLMGenOp.ofConfig {}) "q" [] none = "抱歉，生成答案时出现错误：boom" ∧
    factCheckExecute ⟨some (fun _ => .error "boom"), fun _ => []⟩ "q"
        [{ page_content := "ctx" }] "a" = factCheckDefault :=
  ⟨claim_C6_llm_failure_degrades.1
      ⟨fun _ _ _ => .error "boom", fun _ q _ => q, fun _ q _ => q, fun _ q _ => q,
       fun _ _ _ _ => "", fun _ _ _ _ => ""⟩
      (LLMGenOp.ofConfig {}) "q" [] none "boom" rfl,
   claim_C6_llm_failure_degrades.2.1 (fun _ => .error "boom") (fun _ => []) "q"
      [{ page_content := "ctx" }] "a" "boom" (by decide) rfl⟩

/-- C8: every 120-character query containing "compare", with a 6-document
context, scores at least 0.6 composite complexity, and the adaptive generator
configured with `complexity_threshold = 0.6` routes it to the complex model. -/
theorem claim_C8_complexity_routes_complex :
    ∀ (query : String) (context : List Document) (op : AdaptiveGenOp),
      query.length = 120 → pyIn "compare" query = true → context.length = 6 →
      op.complexity_threshold = 6/10 →
      6/10 ≤ assessComplexity query context ∧
      adaptiveChosenModel op query context = .complex := by
  intro query context op hlen _hkw hctx hthr
  have hctxne : context ≠ [] := by
    intro h
    rw [h] at hctx
    simp at hctx
  have hscore : 6/10 ≤ assessComplexity query context := by
    unfold assessComplexity
    rw [hlen, hctx]
    norm_num [hctxne]
    split <;> norm_num
  refine ⟨hscore, ?_⟩
  unfold adaptiveChosenModel
  rw [hthr, if_pos hscore]

/-- Concrete instantiation of `claim_C8_complexity_routes_complex`: a
120-character query starting with "compare". -/
theorem claim_C8_complexity_routes_complex_witness :
    6/10 ≤ assessComplexity (String.mk ("compare".data ++ List.replicate 113 'x'))
        [⟨"1", []⟩, ⟨"2", []⟩, ⟨"3", []⟩, ⟨"4", []⟩, ⟨"5", []⟩, ⟨"6", []⟩] ∧
    adaptiveChosenModel ⟨"qwen-turbo", "qwen-max", 6/10⟩
        (String.mk ("compare".data ++ List.replicate 113 'x'))
        [⟨"1", []⟩, ⟨"2", []⟩, ⟨"3", []⟩, ⟨"4", []⟩, ⟨"5", []⟩, ⟨"6", []⟩] = .complex :=
  claim_C8_complexity_routes_complex _ _ _ (by decide) (by decide) (by decide) rfl

/-! ## Claim about summary truncation -/

/-- Spec-side predicate: one of the four sentence-ending punctuation patterns of
`_generate_summary` occurs in `s` at position `i`. -/
def sentencePunctAt (s : List Char) (i : Nat) : Prop :=
  ['。'].isPrefixOf (s.drop i) = true ∨ ['.', ' '].isPrefixOf (s.drop i) = true ∨
  ['!', ' '].isPrefixOf (s.drop i) = true ∨ ['?', ' '].isPrefixOf (s.drop i) = true

instance (s : List Char) (i : Nat) : Decidable (sentencePunctAt s i) := by
  unfold sentencePunctAt
  infer_instance

/-- A nonempty pattern can only match at a position inside the text. -/
theorem isPrefixOf_drop_length_le {pat s : List Char} {i : Nat} (hpat : pat ≠ [])
    (h : pat.isPrefixOf (s.drop i) = true) : i ≤ s.length := by
  by_contra hgt
  push_neg at hgt
  have hnil : s.drop i = [] := List.drop_eq_nil_of_le (le_of_lt hgt)
  rw [hnil] at h
  cases pat with
  | nil => exact hpat rfl
  | cons a t => simp [List.isPrefixOf] at h

/-- A punctuation match position is inside the text. -/
theorem sentencePunctAt_length_le {s : List Char} {j : Nat} (h : sentencePunctAt s j) :
    j ≤ s.length := by
  rcases h with h | h | h | h <;> exact isPrefixOf_drop_length_le (by simp) h

/-- `rfindFrom` computes the greatest match position at most `n` (or `-1`). -/
theorem rfindFrom_spec (s pat : List Char) (n : Nat) :
    (rfindFrom s pat n = -1 ∧ ∀ i, i ≤ n → ¬ pat.isPrefixOf (s.drop i) = true) ∨
    (∃ i : Nat, i ≤ n ∧ rfindFrom s pat n = (i : Int) ∧ pat.isPrefixOf (s.drop i) = true ∧
      ∀ j, j ≤ n → pat.isPrefixOf (s.drop j) = true → j ≤ i) := by
  induction n with
  | zero =>
    unfold rfindFrom
    by_cases h : pat.isPrefixOf s = true
    · right
      refine ⟨0, le_refl 0, by rw [if_pos h]; norm_num, ?_, fun j hj _ => hj⟩
      simpa [List.drop_zero] using h
    · left
      refine ⟨by rw [if_neg h], ?_⟩
      intro i hi
      have : i = 0 := by omega
      subst this
      simpa [List.drop_zero] using h
  | succ n ih =>
    unfold rfindFrom
    by_cases h : pat.isPrefixOf (s.drop (n + 1)) = true
    · right
      exact ⟨n + 1, le_refl _, by rw [if_pos h], h, fun j hj _ => hj⟩
    · rcases ih with ⟨hval, hnone⟩ | ⟨i, hi, hval, hpre, hmax⟩
      · left
        refine ⟨by rw [if_neg h]; exact hval, ?_⟩
        intro i hi
        rcases Nat.lt_or_ge i (n + 1) with hlt | hge
        · exact hnone i (by omega)
        · have : i = n + 1 := by omega
          subst this
          exact h
      · right
        refine ⟨i, by omega, by rw [if_neg h]; exact hval, hpre, ?_⟩
        intro j hj hpj
        rcases Nat.lt_or_ge j (n + 1) with hlt | hge
        · exact hmax j (by omega) hpj
        · have : j = n + 1 := by omega
          subst this
          exact absurd hpj h

/-- `str.rfind` dominates every match position. -/
theorem pyRfind_ge_of_match {summary pat : List Char} {j : Nat} (hpat : pat ≠ [])
    (h : pat.isPrefixOf (summary.drop j) = true) : (j : Int) ≤ pyRfind summary pat := by
  rcases rfindFrom_spec summary pat summary.length with ⟨_, hn⟩ | ⟨i, _, hv, _, hm⟩
  · exact absurd h (hn j (isPrefixOf_drop_length_le hpat h))
  · rw [pyRfind, hv]
    exact_mod_cast hm j (isPrefixOf_drop_length_le hpat h) h

/-- A non-negative `str.rfind` result is itself a match position. -/
theorem pyRfind_mem {summary pat : List Char} (_hpat : pat ≠ [])
    (hge : 0 ≤ pyRfind summary pat) :
    ∃ i : Nat, pyRfind summary pat = (i : Int) ∧ pat.isPrefixOf (summary.drop i) = true := by
  rcases rfindFrom_spec summary pat summary.length with ⟨hv, _⟩ | ⟨i, _, hv, hp, _⟩
  · rw [pyRfind, hv] at hge
    norm_num at hge
  · exact ⟨i, by rw [pyRfind, hv], hp⟩

/-- The `max` of the four `rfind`s dominates every punctuation position. -/
theorem lastSentenceEnd_ge (summary : List Char) :
    ∀ j : Nat, sentencePunctAt summary j → (j : Int) ≤ lastSentenceEnd summary := by
  intro j hj
  unfold lastSentenceEnd
  simp only [le_max_iff]
  rcases hj with h | h | h | h
  · exact Or.inl (pyRfind_ge_of_match (by simp) h)
  · exact Or.inr (Or.inl (pyRfind_ge_of_match (by simp) h))
  · exact Or.inr (Or.inr (Or.inl (pyRfind_ge_of_match (by simp) h)))
  · exact Or.inr (Or.inr (Or.inr (pyRfind_ge_of_match (by simp) h)))

/-- When non-negative, the `max` of the four `rfind`s is itself a punctuation
position. -/
theorem lastSentenceEnd_mem (summary : List Char) (h : 0 ≤ lastSentenceEnd summary) :
    ∃ i : Nat, lastSentenceEnd summary = (i : Int) ∧ sentencePunctAt summary i := by
  unfold lastSentenceEnd at h ⊢
  rcases max_choice (pyRfind summary ['。'])
      (max (pyRfind summary ['.', ' '])
        (max (pyRfind summary ['!', ' ']) (pyRfind summary ['?', ' ']))) with h1 | h1
  · rw [h1] at h ⊢
    obtain ⟨i, hv, hp⟩ := pyRfind_mem (by simp) h
    exact ⟨i, hv, Or.inl hp⟩
  · rw [h1] at h ⊢
    rcases max_choice (pyRfind summary ['.', ' '])
        (max (pyRfind summary ['!', ' ']) (pyRfind summary ['?', ' '])) with h2 | h2
    · rw [h2] at h ⊢
      obtain ⟨i, hv, hp⟩ := pyRfind_mem (by simp) h
      exact ⟨i, hv, Or.inr (Or.inl hp)⟩
    · rw [h2] at h ⊢
      rcases max_choice (pyRfind summary ['!', ' ']) (pyRfind summary ['?', ' ']) with h3 | h3
      · rw [h3] at h ⊢
        obtain ⟨i, hv, hp⟩ := pyRfind_mem (by simp) h
        exact ⟨i, hv, Or.inr (Or.inr (Or.inl hp))⟩
      · rw [h3] at h ⊢
        obtain ⟨i, hv, hp⟩ := pyRfind_mem (by simp) h
        exact ⟨i, hv, Or.inr (Or.inr (Or.inr hp))⟩

/-- C9: `_generate_summary` returns the stripped text whole when it fits the
target length; otherwise it cuts the target-length prefix just after the last
sentence-ending punctuation mark when that mark sits past 50% of the target
length, and hard-truncates with an appended ellipsis when no mark does. -/
theorem claim_C9_summary_truncation :
    ∀ (textRaw : List Char) (max_length : Nat),
      ((pyStrip textRaw).length ≤ max_length →
        generateSummary textRaw max_length = pyStrip textRaw) ∧
      (max_length < (pyStrip textRaw).length →
        (∀ i0 : Nat, sentencePunctAt ((pyStrip textRaw).take max_length) i0 →
          max_length < 2 * i0 →
          (∀ j, sentencePunctAt ((pyStrip textRaw).take max_length) j → j ≤ i0) →
          generateSummary textRaw max_length =
            ((pyStrip textRaw).take max_length).take (i0 + 1)) ∧
        ((∀ j, sentencePunctAt ((pyStrip textRaw).take max_length) j → 2 * j ≤ max_length) →
          generateSummary textRaw max_length =
            (pyStrip textRaw).take max_length ++ ['.', '.', '.'])) := by
  intro textRaw max_length
  constructor
  · intro h
    simp only [generateSummary]
    rw [if_pos h]
  · intro hgt
    constructor
    · intro i0 hp hhalf hmax
      have hge : (i0 : Int) ≤ lastSentenceEnd ((pyStrip textRaw).take max_length) :=
        lastSentenceEnd_ge _ i0 hp
      have h0 : 0 ≤ lastSentenceEnd ((pyStrip textRaw).take max_length) :=
        le_trans (by exact_mod_cast Nat.zero_le i0) hge
      obtain ⟨i, hv, hpi⟩ := lastSentenceEnd_mem _ h0
      have hii : i = i0 := by
        have h1 : i ≤ i0 := hmax i hpi
        have h2 : (i0 : Int) ≤ (i : Int) := by rw [← hv]; exact hge
        exact le_antisymm h1 (by exact_mod_cast h2)
      subst hii
      have hcond : (max_length : Int) <
          2 * lastSentenceEnd ((pyStrip textRaw).take max_length) := by
        rw [hv]
        omega
      simp only [generateSummary]
      rw [if_neg (by omega), if_pos hcond, hv]
      congr 1
    · intro hall
      have hcond : ¬ ((max_length : Int) <
          2 * lastSentenceEnd ((pyStrip textRaw).take max_length)) := by
        rcases le_or_lt 0 (lastSentenceEnd ((pyStrip textRaw).take max_length)) with h0 | h0
        · obtain ⟨i, hv, hpi⟩ := lastSentenceEnd_mem _ h0
          have hj := hall i hpi
          rw [hv]
          omega
        · omega
      simp only [generateSummary]
      rw [if_neg (by omega), if_neg hcond]

/-- Concrete instantiation of `claim_C9_summary_truncation`: "Hi. Bye. xyz" at
target length 9 cuts at the last ". " past 50% (position 7), and "short" at
target length 10 is returned whole. -/
theorem claim_C9_summary_truncation_witness :
    generateSummary "Hi. Bye. xyz".data 9 = "Hi. Bye.".data ∧
    generateSummary "short".data 10 = "short".data := by
  constructor
  · have h := ((claim_C9_summary_truncation "Hi. Bye. xyz".data 9).2 (by decide)).1 7
      (by decide) (by decide) ?hmax
    · exact h.trans (by decide)
    case hmax =>
      intro j hj
      have hb := sentencePunctAt_length_le hj
      have hlen : ((pyStrip "Hi. Bye. xyz".data).take 9).length = 9 := by decide
      rw [hlen] at hb
      interval_cases j <;> revert hj <;> decide
  · exact ((claim_C9_summary_truncation "short".data 10).1 (by decide)).trans (by decide)

/-! ## Node-id arithmetic for the hierarchy claim

Proof-side machinery: the decimal renderings used in the f-string node ids are
injective and contain no underscore, hence the three id families are pairwise
disjoint and injective. -/

/-- Proof-side inverse of `pyDigitChar`. -/
def decDigitVal (c : Char) : Nat :=
  if c = '1' then 1 else if c = '2' then 2 else if c = '3' then 3 else if c = '4' then 4
  else if c = '5' then 5 else if c = '6' then 6 else if c = '7' then 7 else if c = '8' then 8
  else if c = '9' then 9 else 0

/-- Proof-side decimal parse. -/
def decVal (l : List Char) : Nat :=
  l.foldl (fun a c => a * 10 + decDigitVal c) 0

theorem decDigitVal_pyDigitChar {d : Nat} (h : d < 10) : decDigitVal (pyDigitChar d) = d := by
  interval_cases d <;> decide

theorem pyNatAux_foldl (fuel : Nat) : ∀ (n acc : Nat), n ≤ fuel →
    List.foldl (fun a c => a * 10 + decDigitVal c) acc (pyNatAux fuel n) =
      acc * 10 ^ (pyNatAux fuel n).length + n := by
  induction fuel with
  | zero =>
    intro n acc h
    have hn : n = 0 := by omega
    subst hn
    simp [pyNatAux]
  | succ fuel ih =>
    intro n acc h
    by_cases h0 : n = 0
    · subst h0
      simp [pyNatAux]
    · have hrec : n / 10 ≤ fuel := by
        have := Nat.div_lt_self (by omega : 0 < n) (by norm_num : 1 < 10)
        omega
      simp only [pyNatAux, if_neg h0]
      rw [List.foldl_append, ih (n / 10) acc hrec, List.length_append]
      simp only [List.foldl_cons, List.foldl_nil, List.length_cons, List.length_nil]
      rw [decDigitVal_pyDigitChar (Nat.mod_lt n (by norm_num))]
      have hdm := Nat.div_add_mod n 10
      rw [pow_succ, ← mul_assoc]
      generalize acc * 10 ^ (pyNatAux fuel (n / 10)).length = A at *
      omega

theorem decVal_pyNat (n : Nat) : decVal (pyNat n) = n := by
  unfold pyNat
  by_cases h : n = 0
  · subst h
    decide
  · rw [if_neg h]
    unfold decVal
    rw [pyNatAux_foldl (n + 1) n 0 (by omega)]
    simp

theorem pyNat_injective : Function.Injective pyNat := by
  intro a b h
  have ha := decVal_pyNat a
  rw [h, decVal_pyNat b] at ha
  omega

theorem pyDigitChar_ne_underscore (d : Nat) : pyDigitChar d ≠ '_' := by
  unfold pyDigitChar
  rcases Nat.lt_or_ge d 10 with h | h
  · interval_cases d <;> decide
  · rw [List.getD_eq_default _ _ (by simpa using h)]
    decide

theorem pyNatAux_no_underscore (fuel : Nat) : ∀ n, '_' ∉ pyNatAux fuel n := by
  induction fuel with
  | zero => intro n; simp [pyNatAux]
  | succ fuel ih =>
    intro n
    by_cases h : n = 0
    · simp [pyNatAux, h]
    · simp only [pyNatAux, if_neg h]
      intro hmem
      rcases List.mem_append.mp hmem with hm | hm
      · exact ih _ hm
      · simp only [List.mem_singleton] at hm
        exact pyDigitChar_ne_underscore _ hm.symm

theorem pyNat_no_underscore (n : Nat) : '_' ∉ pyNat n := by
  unfold pyNat
  by_cases h : n = 0
  · subst h
    decide
  · rw [if_neg h]
    exact pyNatAux_no_underscore _ _

theorem count_pyNat_underscore (n : Nat) : (pyNat n).count '_' = 0 :=
  List.count_eq_zero.mpr (pyNat_no_underscore n)

theorem count_docIdL (i : Nat) : (docIdL i).count '_' = 1 := by
  unfold docIdL
  rw [List.count_append, count_pyNat_underscore]
  decide

theorem count_secIdL (i j : Nat) : (secIdL i j).count '_' = 3 := by
  unfold secIdL
  rw [List.count_append, List.count_append, count_docIdL, count_pyNat_underscore]
  decide

theorem count_chunkIdL (i j k : Nat) : (chunkIdL i j k).count '_' = 5 := by
  unfold chunkIdL
  rw [List.count_append, List.count_append, count_secIdL, count_pyNat_underscore]
  decide

theorem docIdL_ne_secIdL (i i1 j1 : Nat) : docIdL i ≠ secIdL i1 j1 := by
  intro h
  have hc := congrArg (fun l => List.count '_' l) h
  simp only [count_docIdL, count_secIdL] at hc
  omega

theorem docIdL_ne_chunkIdL (i i1 j1 k1 : Nat) : docIdL i ≠ chunkIdL i1 j1 k1 := by
  intro h
  have hc := congrArg (fun l => List.count '_' l) h
  simp only [count_docIdL, count_chunkIdL] at hc
  omega

theorem secIdL_ne_chunkIdL (i j i1 j1 k1 : Nat) : secIdL i j ≠ chunkIdL i1 j1 k1 := by
  intro h
  have hc := congrArg (fun l => List.count '_' l) h
  simp only [count_secIdL, count_chunkIdL] at hc
  omega

theorem underscore_split {xs ys xs1 ys1 : List Char} (hx : '_' ∉ xs) (hx1 : '_' ∉ xs1)
    (h : xs ++ '_' :: ys = xs1 ++ '_' :: ys1) : xs = xs1 ∧ ys = ys1 := by
  induction xs generalizing xs1 with
  | nil =>
    cases xs1 with
    | nil => simpa using h
    | cons b u =>
      simp only [List.nil_append, List.cons_append, List.cons.injEq] at h
      apply absurd _ hx1
      rw [← h.1]
      exact List.mem_cons_self _ _
  | cons a t ih =>
    cases xs1 with
    | nil =>
      simp only [List.nil_append, List.cons_append, List.cons.injEq] at h
      apply absurd _ hx
      rw [h.1]
      exact List.mem_cons_self _ _
    | cons b u =>
      simp only [List.cons_append, List.cons.injEq] at h
      obtain ⟨hab, hrest⟩ := h
      have ht := ih (fun hm => hx (List.mem_cons_of_mem a hm))
        (fun hm => hx1 (List.mem_cons_of_mem b hm)) hrest
      exact ⟨by rw [hab, ht.1], ht.2⟩

theorem docIdL_injective : Function.Injective docIdL := by
  intro a b h
  unfold docIdL at h
  exact pyNat_injective (List.append_cancel_left h)

theorem secIdL_injective {i j i1 j1 : Nat} (h : secIdL i j = secIdL i1 j1) :
    i = i1 ∧ j = j1 := by
  unfold secIdL docIdL at h
  simp only [List.append_assoc] at h
  have h1 := List.append_cancel_left h
  simp only [List.cons_append, List.nil_append] at h1
  obtain ⟨hi, hrest⟩ := underscore_split (pyNat_no_underscore i) (pyNat_no_underscore i1) h1
  simp only [List.cons.injEq, true_and] at hrest
  exact ⟨pyNat_injective hi, pyNat_injective hrest⟩

theorem chunkIdL_injective {i j k i1 j1 k1 : Nat} (h : chunkIdL i j k = chunkIdL i1 j1 k1) :
    i = i1 ∧ j = j1 ∧ k = k1 := by
  unfold chunkIdL secIdL docIdL at h
  simp only [List.append_assoc] at h
  have h1 := List.append_cancel_left h
  simp only [List.cons_append, List.nil_append] at h1
  obtain ⟨hi, hrest⟩ := underscore_split (pyNat_no_underscore i) (pyNat_no_underscore i1) h1
  simp only [List.cons.injEq, true_and] at hrest
  have hrest2 : pyNat j ++ '_' :: ('c' :: 'h' :: 'u' :: 'n' :: 'k' :: '_' :: pyNat k) =
      pyNat j1 ++ '_' :: ('c' :: 'h' :: 'u' :: 'n' :: 'k' :: '_' :: pyNat k1) := hrest
  obtain ⟨hj, hrest3⟩ := underscore_split (pyNat_no_underscore j) (pyNat_no_underscore j1) hrest2
  simp only [List.cons.injEq, true_and] at hrest3
  exact ⟨pyNat_injective hi, pyNat_injective hj, pyNat_injective hrest3⟩

/-! ## The build invariant for `build_hierarchy` -/

/-- Invariant carried through the hierarchy build.  `F` is the set of node ids not
yet created: they are absent from the map and from every children list; every
stored child link is backed by exactly one occurrence in its parent's
`children_ids`; level 0 is exactly the document-id family. -/
structure MapInv (m : List Char → Option HierarchicalNode) (F : List Char → Prop) : Prop where
  once : ∀ id n p, m id = some n → n.parent_id = some p →
    ∃ pn, m p = some pn ∧ pn.children_ids.count id = 1
  freshNone : ∀ id, F id → m id = none
  freshNotChild : ∀ id n, m id = some n → ∀ f, F f → f ∉ n.children_ids
  levelZero : ∀ id n, m id = some n → (n.level = 0 ↔ ∃ a, id = docIdL a)

theorem MapInv.mono {m : List Char → Option HierarchicalNode} {F G : List Char → Prop}
    (h : MapInv m F) (sub : ∀ x, G x → F x) : MapInv m G :=
  ⟨h.once, fun x hx => h.freshNone x (sub x hx),
   fun x n hx f hf => h.freshNotChild x n hx f (sub f hf), h.levelZero⟩

theorem insertNode_isSome {m : List Char → Option HierarchicalNode} {k q : List Char}
    {v : HierarchicalNode} (h : (m q).isSome) : ((insertNode m k v) q).isSome := by
  simp only [insertNode]
  split
  · simp
  · exact h

theorem addChildInMap_isSome {m : List Char → Option HierarchicalNode} {p c q : List Char}
    (h : (m q).isSome) : ((addChildInMap m p c) q).isSome := by
  unfold addChildInMap
  cases hm : m p with
  | none => exact h
  | some pn => exact insertNode_isSome h

theorem insertNode_lookup_self {m : List Char → Option HierarchicalNode} {k : List Char}
    {v : HierarchicalNode} : (insertNode m k v) k = some v := by
  simp [insertNode]

/-- Inserting a fresh root node (no parent, no children, level 0) preserves the
invariant, shrinking the fresh set by its id. -/
theorem MapInv.insertRoot {m : List Char → Option HierarchicalNode} {F : List Char → Prop}
    (inv : MapInv m F) (i : Nat) (node : HierarchicalNode)
    (hfresh : F (docIdL i)) (hparent : node.parent_id = none)
    (hchildren : node.children_ids = []) (hlevel : node.level = 0) :
    MapInv (insertNode m (docIdL i) node) (fun x => F x ∧ x ≠ docIdL i) := by
  have hmk : m (docIdL i) = none := inv.freshNone _ hfresh
  constructor
  · intro id n p hn hp
    simp only [insertNode] at hn
    by_cases hid : id = docIdL i
    · rw [if_pos hid] at hn
      injection hn with hn
      rw [← hn, hparent] at hp
      exact absurd hp (by simp)
    · rw [if_neg hid] at hn
      obtain ⟨pn, hpn, hcount⟩ := inv.once id n p hn hp
      have hpd : p ≠ docIdL i := by
        intro e
        rw [e, hmk] at hpn
        exact absurd hpn (by simp)
      exact ⟨pn, by simp only [insertNode]; rw [if_neg hpd]; exact hpn, hcount⟩
  · intro x hx
    simp only [insertNode]
    rw [if_neg hx.2]
    exact inv.freshNone x hx.1
  · intro x n hx f hf
    simp only [insertNode] at hx
    by_cases hxd : x = docIdL i
    · rw [if_pos hxd] at hx
      injection hx with hx
      rw [← hx, hchildren]
      simp
    · rw [if_neg hxd] at hx
      exact inv.freshNotChild x n hx f hf.1
  · intro x n hx
    simp only [insertNode] at hx
    by_cases hxd : x = docIdL i
    · rw [if_pos hxd] at hx
      injection hx with hx
      subst hxd
      exact ⟨fun _ => ⟨i, rfl⟩, fun _ => by rw [← hx]; exact hlevel⟩
    · rw [if_neg hxd] at hx
      exact inv.levelZero x n hx

/-- Creating a fresh child node and registering it with its (existing) parent —
the `self.nodes[id] = node; parent.add_child(id)` pair — preserves the
invariant, shrinking the fresh set by the child id. -/
theorem MapInv.addChildNode {m : List Char → Option HierarchicalNode} {F : List Char → Prop}
    (inv : MapInv m F) (cid p : List Char) (node : HierarchicalNode)
    (hfresh : F cid) (hparent : node.parent_id = some p)
    (hchild : node.children_ids = []) (hlevel : node.level ≠ 0)
    (hnotdoc : ∀ a, cid ≠ docIdL a)
    (hp : ∃ pn, m p = some pn) (hpne : p ≠ cid) :
    MapInv (addChildInMap (insertNode m cid node) p cid) (fun x => F x ∧ x ≠ cid) := by
  have hmcid : m cid = none := inv.freshNone _ hfresh
  obtain ⟨pn, hpn⟩ := hp
  have hm1p : (insertNode m cid node) p = some pn := by
    simp only [insertNode]
    rw [if_neg hpne]
    exact hpn
  have hcidpn : cid ∉ pn.children_ids := inv.freshNotChild p pn hpn cid hfresh
  have hlookup : ∀ q, (addChildInMap (insertNode m cid node) p cid) q =
      if q = p then some { pn with children_ids := pn.children_ids ++ [cid] }
      else if q = cid then some node else m q := by
    intro q
    unfold addChildInMap
    rw [hm1p]
    simp only [insertNode]
  constructor
  · intro x n q hx hq
    rw [hlookup x] at hx
    rw [hlookup q]
    by_cases hxp : x = p
    · rw [if_pos hxp] at hx
      injection hx with hx
      have hq2 : pn.parent_id = some q := by
        have hpar : n.parent_id = pn.parent_id := by rw [← hx]
        rw [← hpar]
        exact hq
      obtain ⟨qn, hqn, hcount⟩ := inv.once p pn q hpn hq2
      by_cases hqp : q = p
      · have hqnpn : qn = pn := by
          rw [hqp, hpn] at hqn
          exact (Option.some.inj hqn).symm
        rw [if_pos hqp]
        refine ⟨_, rfl, ?_⟩
        have hxcid : x ∉ ([cid] : List (List Char)) := by simp [hxp, hpne]
        rw [List.count_append, List.count_eq_zero.mpr hxcid]
        rw [hqnpn] at hcount
        rw [hxp]
        simpa using hcount
      · have hqc : q ≠ cid := by
          intro e
          rw [e, hmcid] at hqn
          exact absurd hqn (by simp)
        rw [if_neg hqp, if_neg hqc]
        refine ⟨qn, hqn, ?_⟩
        rw [hxp]
        exact hcount
    · rw [if_neg hxp] at hx
      by_cases hxc : x = cid
      · rw [if_pos hxc] at hx
        injection hx with hx
        have hq2 : q = p := by
          have hpar : n.parent_id = node.parent_id := by rw [← hx]
          rw [hpar, hparent] at hq
          exact (Option.some.inj hq).symm
        rw [hq2, if_pos rfl]
        refine ⟨_, rfl, ?_⟩
        rw [hxc, List.count_append, List.count_eq_zero.mpr hcidpn]
        simp
      · rw [if_neg hxc] at hx
        obtain ⟨qn, hqn, hcount⟩ := inv.once x n q hx hq
        by_cases hqp : q = p
        · have hqnpn : qn = pn := by
            rw [hqp, hpn] at hqn
            exact (Option.some.inj hqn).symm
          rw [if_pos hqp]
          refine ⟨_, rfl, ?_⟩
          have hxcid : x ∉ ([cid] : List (List Char)) := by simp [hxc]
          rw [List.count_append, List.count_eq_zero.mpr hxcid]
          rw [hqnpn] at hcount
          simpa using hcount
        · have hqc : q ≠ cid := by
            intro e
            rw [e, hmcid] at hqn
            exact absurd hqn (by simp)
          rw [if_neg hqp, if_neg hqc]
          exact ⟨qn, hqn, hcount⟩
  · intro x hx
    rw [hlookup x]
    have hxp : x ≠ p := by
      intro e
      rw [← e] at hpn
      rw [inv.freshNone x hx.1] at hpn
      exact absurd hpn (by simp)
    rw [if_neg hxp, if_neg hx.2]
    exact inv.freshNone x hx.1
  · intro x n hx f hf
    rw [hlookup x] at hx
    by_cases hxp : x = p
    · rw [if_pos hxp] at hx
      injection hx with hx
      have hch : n.children_ids = pn.children_ids ++ [cid] := by rw [← hx]
      rw [hch]
      simp only [List.mem_append, List.mem_singleton]
      rintro (hm | he)
      · exact inv.freshNotChild p pn hpn f hf.1 hm
      · exact hf.2 he
    · rw [if_neg hxp] at hx
      by_cases hxc : x = cid
      · rw [if_pos hxc] at hx
        injection hx with hx
        have hch : n.children_ids = node.children_ids := by rw [← hx]
        rw [hch, hchild]
        simp
      · rw [if_neg hxc] at hx
        exact inv.freshNotChild x n hx f hf.1
  · intro x n hx
    rw [hlookup x] at hx
    by_cases hxp : x = p
    · rw [if_pos hxp] at hx
      injection hx with hx
      have hl : n.level = pn.level := by rw [← hx]
      rw [hl, hxp]
      exact inv.levelZero p pn hpn
    · rw [if_neg hxp] at hx
      by_cases hxc : x = cid
      · rw [if_pos hxc] at hx
        injection hx with hx
        have hl : n.level = node.level := by rw [← hx]
        rw [hl, hxc]
        exact ⟨fun h0 => absurd h0 hlevel, fun hex => absurd hex.choose_spec (hnotdoc hex.choose)⟩
      · rw [if_neg hxc] at hx
        exact inv.levelZero x n hx

theorem addChildNode_lookup_cid {m : List Char → Option HierarchicalNode} {cid p : List Char}
    {node : HierarchicalNode} (hpne : p ≠ cid) :
    (addChildInMap (insertNode m cid node) p cid) cid = some node := by
  unfold addChildInMap
  cases hm : (insertNode m cid node) p with
  | none => simp [insertNode]
  | some pn =>
    simp only [insertNode]
    rw [if_neg hpne.symm]
    simp

/-- The chunk loop preserves the build invariant, consuming the freshness of all
chunk ids of its section; it does not touch `root_nodes` and never deletes map
entries. -/
theorem buildChunks_inv (i j : Nat) (meta : List (String × String)) :
    ∀ (chunks : List (List Char)) (k : Nat) (st : HState) (F : List Char → Prop),
      MapInv st.nodes F →
      (∀ c, k ≤ c → F (chunkIdL i j c)) →
      (st.nodes (secIdL i j)).isSome →
      MapInv (buildChunks i j meta k chunks st).nodes
          (fun x => F x ∧ ∀ c, x ≠ chunkIdL i j c) ∧
      (buildChunks i j meta k chunks st).root_nodes = st.root_nodes ∧
      (∀ q, (st.nodes q).isSome → ((buildChunks i j meta k chunks st).nodes q).isSome) := by
  intro chunks
  induction chunks with
  | nil =>
    intro k st F inv hfr _hsec
    exact ⟨inv.mono (fun x hx => hx.1), rfl, fun q h => h⟩
  | cons chunk rest ih =>
    intro k st F inv hfr hsec
    simp only [buildChunks]
    have hfreshcid : F (chunkIdL i j k) := hfr k (le_refl k)
    have hinv2 := inv.addChildNode (chunkIdL i j k) (secIdL i j)
      { content := chunk, level := 2, node_id := chunkIdL i j k,
        parent_id := some (secIdL i j), metadata := meta }
      hfreshcid rfl rfl (by norm_num)
      (fun a e => docIdL_ne_chunkIdL a i j k e.symm)
      (Option.isSome_iff_exists.mp hsec) (secIdL_ne_chunkIdL i j i j k)
    have hsec2 : ((addChildInMap (insertNode st.nodes (chunkIdL i j k)
        { content := chunk, level := 2, node_id := chunkIdL i j k,
          parent_id := some (secIdL i j), metadata := meta }) (secIdL i j)
        (chunkIdL i j k)) (secIdL i j)).isSome :=
      addChildInMap_isSome (insertNode_isSome hsec)
    have hfr2 : ∀ c, k + 1 ≤ c →
        (F (chunkIdL i j c) ∧ chunkIdL i j c ≠ chunkIdL i j k) := by
      intro c hc
      refine ⟨hfr c (by omega), fun e => ?_⟩
      have := chunkIdL_injective e
      omega
    obtain ⟨hi1, hi2, hi3⟩ := ih (k + 1)
      ⟨addChildInMap (insertNode st.nodes (chunkIdL i j k)
          { content := chunk, level := 2, node_id := chunkIdL i j k,
            parent_id := some (secIdL i j), metadata := meta }) (secIdL i j)
          (chunkIdL i j k), st.root_nodes⟩
      (fun x => F x ∧ x ≠ chunkIdL i j k) hinv2 hfr2 hsec2
    refine ⟨hi1.mono ?_, hi2, ?_⟩
    · intro x hx
      exact ⟨⟨hx.1, hx.2 k⟩, hx.2⟩
    · intro q h
      exact hi3 q (addChildInMap_isSome (insertNode_isSome h))

/-- The section loop preserves the build invariant, consuming the freshness of
all section and chunk ids of its document. -/
theorem buildSections_inv (i chunk_size : Nat) (meta : List (String × String)) :
    ∀ (sections : List (List Char)) (j : Nat) (st : HState) (F : List Char → Prop),
      MapInv st.nodes F →
      (∀ b, j ≤ b → F (secIdL i b)) →
      (∀ b c, j ≤ b → F (chunkIdL i b c)) →
      (st.nodes (docIdL i)).isSome →
      MapInv (buildSections i chunk_size meta j sections st).nodes
          (fun x => F x ∧ (∀ b, x ≠ secIdL i b) ∧ (∀ b c, x ≠ chunkIdL i b c)) ∧
      (buildSections i chunk_size meta j sections st).root_nodes = st.root_nodes ∧
      (∀ q, (st.nodes q).isSome →
        ((buildSections i chunk_size meta j sections st).nodes q).isSome) := by
  intro sections
  induction sections with
  | nil =>
    intro j st F inv _hsF _hcF _hdoc
    exact ⟨inv.mono (fun x hx => hx.1), rfl, fun q h => h⟩
  | cons sec rest ih =>
    intro j st F inv hsF hcF hdoc
    simp only [buildSections]
    have hfresh : F (secIdL i j) := hsF j (le_refl j)
    have hinv2 := inv.addChildNode (secIdL i j) (docIdL i)
      { content := sec, level := 1, node_id := secIdL i j,
        parent_id := some (docIdL i), metadata := meta,
        summary := generateSummary sec 100 }
      hfresh rfl rfl (by norm_num)
      (fun a e => docIdL_ne_secIdL a i j e.symm)
      (Option.isSome_iff_exists.mp hdoc) (docIdL_ne_secIdL i i j)
    have hsecSome : ((addChildInMap (insertNode st.nodes (secIdL i j)
        { content := sec, level := 1, node_id := secIdL i j,
          parent_id := some (docIdL i), metadata := meta,
          summary := generateSummary sec 100 }) (docIdL i) (secIdL i j))
        (secIdL i j)).isSome := by
      rw [addChildNode_lookup_cid (docIdL_ne_secIdL i i j)]
      simp
    have hfrChunks : ∀ c, 0 ≤ c →
        (F (chunkIdL i j c) ∧ chunkIdL i j c ≠ secIdL i j) :=
      fun c _ => ⟨hcF j c (le_refl j), fun e => secIdL_ne_chunkIdL i j i j c e.symm⟩
    obtain ⟨hc1, hc2, hc3⟩ := buildChunks_inv i j meta (splitIntoChunks sec chunk_size) 0
      ⟨addChildInMap (insertNode st.nodes (secIdL i j)
        { content := sec, level := 1, node_id := secIdL i j,
          parent_id := some (docIdL i), metadata := meta,
          summary := generateSummary sec 100 }) (docIdL i) (secIdL i j), st.root_nodes⟩
      (fun x => F x ∧ x ≠ secIdL i j) hinv2 hfrChunks hsecSome
    have hdoc2 := hc3 (docIdL i) (addChildInMap_isSome (insertNode_isSome hdoc))
    have hsF2 : ∀ b, j + 1 ≤ b →
        ((F (secIdL i b) ∧ secIdL i b ≠ secIdL i j) ∧
          ∀ c, secIdL i b ≠ chunkIdL i j c) := by
      intro b hb
      refine ⟨⟨hsF b (by omega), fun e => ?_⟩, fun c => secIdL_ne_chunkIdL i b i j c⟩
      have := secIdL_injective e
      omega
    have hcF2 : ∀ b c, j + 1 ≤ b →
        ((F (chunkIdL i b c) ∧ chunkIdL i b c ≠ secIdL i j) ∧
          ∀ c2, chunkIdL i b c ≠ chunkIdL i j c2) := by
      intro b c hb
      refine ⟨⟨hcF b c (by omega), fun e => secIdL_ne_chunkIdL i j i b c e.symm⟩,
        fun c2 e => ?_⟩
      have := chunkIdL_injective e
      omega
    obtain ⟨hi1, hi2, hi3⟩ := ih (j + 1) _ _ hc1 hsF2 hcF2 hdoc2
    refine ⟨hi1.mono ?_, by rw [hi2, hc2], ?_⟩
    · intro x hx
      exact ⟨⟨⟨hx.1, hx.2.1 j⟩, fun c => hx.2.2 j c⟩, hx.2.1, hx.2.2⟩
    · intro q h
      exact hi3 q (hc3 q (addChildInMap_isSome (insertNode_isSome h)))

/-- The document loop preserves the build invariant, consuming the freshness of
all ids of the processed documents, appending one root id per document, and
keeping a level-0 node reachable at every processed document id. -/
theorem buildDocs_inv (chunk_size : Nat) :
    ∀ (docs : List Document) (i : Nat) (st : HState) (F : List Char → Prop),
      MapInv st.nodes F →
      (∀ a, i ≤ a → F (docIdL a)) →
      (∀ a b, i ≤ a → F (secIdL a b)) →
      (∀ a b c, i ≤ a → F (chunkIdL a b c)) →
      MapInv (buildDocs chunk_size i docs st).nodes
          (fun x => F x ∧ ∀ a b c, i ≤ a → a < i + docs.length →
            (x ≠ docIdL a ∧ x ≠ secIdL a b ∧ x ≠ chunkIdL a b c)) ∧
      (buildDocs chunk_size i docs st).root_nodes =
        st.root_nodes ++ (List.range' i docs.length).map docIdL ∧
      (∀ q, (st.nodes q).isSome → ((buildDocs chunk_size i docs st).nodes q).isSome) ∧
      (∀ a, i ≤ a → a < i + docs.length →
        ((buildDocs chunk_size i docs st).nodes (docIdL a)).isSome) := by
  intro docs
  induction docs with
  | nil =>
    intro i st F inv _hdF _hsF _hcF
    refine ⟨inv.mono (fun x hx => hx.1), by simp [buildDocs], fun q h => h, ?_⟩
    intro a h1 h2
    simp only [List.length_nil] at h2
    omega
  | cons doc rest ih =>
    intro i st F inv hdF hsF hcF
    simp only [buildDocs]
    have hinv1 := inv.insertRoot i
      { content := doc.page_content.data, level := 0, node_id := docIdL i,
        parent_id := none, metadata := doc.metadata,
        summary := generateSummary doc.page_content.data 200 }
      (hdF i (le_refl i)) rfl rfl rfl
    have hdocSome : ((insertNode st.nodes (docIdL i)
        { content := doc.page_content.data, level := 0, node_id := docIdL i,
          parent_id := none, metadata := doc.metadata,
          summary := generateSummary doc.page_content.data 200 }) (docIdL i)).isSome := by
      rw [insertNode_lookup_self]
      simp
    have hsF1 : ∀ b, 0 ≤ b →
        (F (secIdL i b) ∧ secIdL i b ≠ docIdL i) :=
      fun b _ => ⟨hsF i b (le_refl i), fun e => docIdL_ne_secIdL i i b e.symm⟩
    have hcF1 : ∀ b c, 0 ≤ b →
        (F (chunkIdL i b c) ∧ chunkIdL i b c ≠ docIdL i) :=
      fun b c _ => ⟨hcF i b c (le_refl i), fun e => docIdL_ne_chunkIdL i i b c e.symm⟩
    obtain ⟨hs1, hs2, hs3⟩ := buildSections_inv i chunk_size doc.metadata
      (splitIntoSections doc.page_content.data) 0
      ⟨insertNode st.nodes (docIdL i)
        { content := doc.page_content.data, level := 0, node_id := docIdL i,
          parent_id := none, metadata := doc.metadata,
          summary := generateSummary doc.page_content.data 200 },
       st.root_nodes ++ [docIdL i]⟩
      (fun x => F x ∧ x ≠ docIdL i) hinv1 hsF1 hcF1 hdocSome
    have hdF2 : ∀ a, i + 1 ≤ a →
        ((F (docIdL a) ∧ docIdL a ≠ docIdL i) ∧ (∀ b, docIdL a ≠ secIdL i b) ∧
          ∀ b c, docIdL a ≠ chunkIdL i b c) := by
      intro a ha
      refine ⟨⟨hdF a (by omega), fun e => ?_⟩, fun b => docIdL_ne_secIdL a i b,
        fun b c => docIdL_ne_chunkIdL a i b c⟩
      have := docIdL_injective e
      omega
    have hsF2 : ∀ a b, i + 1 ≤ a →
        ((F (secIdL a b) ∧ secIdL a b ≠ docIdL i) ∧ (∀ b2, secIdL a b ≠ secIdL i b2) ∧
          ∀ b2 c, secIdL a b ≠ chunkIdL i b2 c) := by
      intro a b ha
      refine ⟨⟨hsF a b (by omega), fun e => docIdL_ne_secIdL i a b e.symm⟩,
        fun b2 e => ?_, fun b2 c => secIdL_ne_chunkIdL a b i b2 c⟩
      have := secIdL_injective e
      omega
    have hcF2 : ∀ a b c, i + 1 ≤ a →
        ((F (chunkIdL a b c) ∧ chunkIdL a b c ≠ docIdL i) ∧
          (∀ b2, chunkIdL a b c ≠ secIdL i b2) ∧
          ∀ b2 c2, chunkIdL a b c ≠ chunkIdL i b2 c2) := by
      intro a b c ha
      refine ⟨⟨hcF a b c (by omega), fun e => docIdL_ne_chunkIdL i a b c e.symm⟩,
        fun b2 e => secIdL_ne_chunkIdL i b2 a b c e.symm, fun b2 c2 e => ?_⟩
      have := chunkIdL_injective e
      omega
    obtain ⟨hr1, hr2, hr3, hr4⟩ := ih (i + 1) _ _ hs1 hdF2 hsF2 hcF2
    refine ⟨hr1.mono ?_, ?_, ?_, ?_⟩
    · intro x hx
      have hbound : ∀ a, i ≤ a → a < i + 1 + rest.length →
          a < i + (doc :: rest).length := by
        intro a h1 h2
        simp only [List.length_cons]
        omega
      refine ⟨⟨⟨hx.1,
        (hx.2 i 0 0 (le_refl i) (by simp only [List.length_cons]; omega)).1⟩,
        fun b => (hx.2 i b 0 (le_refl i) (by simp only [List.length_cons]; omega)).2.1,
        fun b c => (hx.2 i b c (le_refl i) (by simp only [List.length_cons]; omega)).2.2⟩,
        fun a b c h1 h2 => hx.2 a b c (by omega) (hbound a (by omega) h2)⟩
    · rw [hr2, hs2]
      simp only [List.length_cons, List.range'_succ, List.map_cons, List.append_assoc,
        List.singleton_append]
    · intro q h
      exact hr3 q (hs3 q (insertNode_isSome h))
    · intro a h1 h2
      simp only [List.length_cons] at h2
      rcases Nat.eq_or_lt_of_le h1 with he | hlt
      · rw [← he]
        exact hr3 _ (hs3 _ hdocSome)
      · exact hr4 a (by omega) (by omega)

/-- C7: after `build_hierarchy` on a fresh strategy, every stored node with
`parent_id = p` occurs exactly once in `nodes[p].children_ids`; `root_nodes`
lists exactly one (distinct) document id per input document; the level-0 nodes
are exactly the per-document roots. -/
theorem claim_C7_hierarchy_invariants :
    ∀ (documents : List Document) (chunk_size : Nat),
      (∀ id n p, (build_hierarchy documents chunk_size).nodes id = some n →
        n.parent_id = some p →
        ∃ pn, (build_hierarchy documents chunk_size).nodes p = some pn ∧
          pn.children_ids.count id = 1) ∧
      (build_hierarchy documents chunk_size).root_nodes =
        (List.range documents.length).map docIdL ∧
      (build_hierarchy documents chunk_size).root_nodes.Nodup ∧
      (∀ i, i < documents.length →
        ∃ n, (build_hierarchy documents chunk_size).nodes (docIdL i) = some n ∧
          n.level = 0) ∧
      (∀ id n, (build_hierarchy documents chunk_size).nodes id = some n →
        n.level = 0 → ∃ i, i < documents.length ∧ id = docIdL i) := by
  intro documents chunk_size
  simp only [build_hierarchy]
  have hbase : MapInv emptyHState.nodes (fun x => ∃ a b c,
      x = docIdL a ∨ x = secIdL a b ∨ x = chunkIdL a b c) := by
    constructor
    · intro x n p hx
      exact absurd hx (by simp [emptyHState])
    · intro x _
      rfl
    · intro x n hx
      exact absurd hx (by simp [emptyHState])
    · intro x n hx
      exact absurd hx (by simp [emptyHState])
  obtain ⟨h1, h2, h3, h4⟩ := buildDocs_inv chunk_size documents 0 emptyHState _ hbase
    (fun a _ => ⟨a, 0, 0, Or.inl rfl⟩) (fun a b _ => ⟨a, b, 0, Or.inr (Or.inl rfl)⟩)
    (fun a b c _ => ⟨a, b, c, Or.inr (Or.inr rfl)⟩)
  have hroot : (buildDocs chunk_size 0 documents emptyHState).root_nodes =
      (List.range documents.length).map docIdL := by
    rw [h2]
    simp [emptyHState, List.range_eq_range']
  refine ⟨h1.once, hroot, ?_, ?_, ?_⟩
  · rw [hroot]
    exact (List.nodup_range documents.length).map docIdL_injective
  · intro i hi
    have hsome := h4 i (by omega) (by omega)
    obtain ⟨n, hn⟩ := Option.isSome_iff_exists.mp hsome
    exact ⟨n, hn, (h1.levelZero _ n hn).mpr ⟨i, rfl⟩⟩
  · intro id n hn h0
    obtain ⟨a, ha⟩ := (h1.levelZero id n hn).mp h0
    refine ⟨a, ?_, ha⟩
    by_contra hge
    push_neg at hge
    have hfresh : (∃ a2 b c, docIdL a = docIdL a2 ∨ docIdL a = secIdL a2 b ∨
        docIdL a = chunkIdL a2 b c) ∧
        ∀ a2 b c, 0 ≤ a2 → a2 < 0 + documents.length →
          (docIdL a ≠ docIdL a2 ∧ docIdL a ≠ secIdL a2 b ∧ docIdL a ≠ chunkIdL a2 b c) := by
      refine ⟨⟨a, 0, 0, Or.inl rfl⟩, ?_⟩
      intro a2 b c _ hlt
      refine ⟨fun e => ?_, docIdL_ne_secIdL a a2 b, docIdL_ne_chunkIdL a a2 b c⟩
      have := docIdL_injective e
      omega
    have := h1.freshNone (docIdL a) hfresh
    rw [ha] at hn
    rw [this] at hn
    exact absurd hn (by simp)

/-- Concrete instantiation of `claim_C7_hierarchy_invariants`: building over one
document, the chunk node is counted exactly once among its section's children,
and the document root is a level-0 node. -/
theorem claim_C7_hierarchy_invariants_witness :
    (∃ pn, (build_hierarchy [⟨"hello world", []⟩] 1000).nodes (secIdL 0 0) = some pn ∧
      pn.children_ids.count (chunkIdL 0 0 0) = 1) ∧
    (∃ n, (build_hierarchy [⟨"hello world", []⟩] 1000).nodes (docIdL 0) = some n ∧
      n.level = 0) :=
  ⟨(claim_C7_hierarchy_invariants [⟨"hello world", []⟩] 1000).1 (chunkIdL 0 0 0)
      { content := "hello world".data, level := 2, node_id := chunkIdL 0 0 0,
        parent_id := some (secIdL 0 0) }
      (secIdL 0 0) (by decide) rfl,
   (claim_C7_hierarchy_invariants [⟨"hello world", []⟩] 1000).2.2.2.1 0 (by decide)⟩
